import Mathlib

/-!
uC/OS-II Linux port (pcDuino): bootstrap records, task registration,
critical sections, startup barrier and context switch

Shallow embedding of `ucos/port/os_cpu_c.c`, `ucos/port/os_cpu.h` and of the
call made by `app/sample.c`.

Conventions of the embedding
* Pointers are addresses (`Nat`).  A task control block is represented by the
  one field the port reads, `OSTCBStkPtr`.
* Memory is a typed heap: `mem a` is the `FuncInfo` object stored at address `a`.
* The global counters are C `int`s that count the threads of one process; they
  are modelled as `Nat` (no wrap: 2^31 threads cannot exist in a process).
* The slot arrays `grcvThread` and `threadTask` are declared with
  `OS_LOWEST_PRIO` entries, a constant of the kernel configuration that is a
  parameter here.  They are modelled as total maps on `Nat`; a cell with index
  `>= OS_LOWEST_PRIO` stands for memory past the end of the array.
* The kernel (`OSStart`, `OSTaskCreate`, the scheduler) is not part of the
  port: what it provides (`OSTCBCur`, `OSTCBHighRdy`, the stack argument) is a
  parameter of the definitions.
* The threads are a transition system in which one step is one statement of
  one thread; the first part of the file is sequential code.
-/

namespace LinuxPort

/-! ## Bootstrap record (os_cpu_c.c 88-97) -/

/-- The record `FuncInfo` of os_cpu_c.c lines 90-95. -/
structure FuncInfo where
  pFunc : Nat
  pArgs : Nat
  nThreadIdx : Nat
deriving DecidableEq, Repr

/-- The one field of the kernel type `OS_TCB` that the port uses. -/
structure OS_TCB where
  OSTCBStkPtr : Nat
deriving DecidableEq, Repr

/-- Typed heap of `FuncInfo` objects, indexed by address. -/
abbrev Mem := Nat → FuncInfo

/-- Value of `sizeof(FuncInfo)` for a target whose pointers take `ptrBytes`
bytes and whose `int` takes 4: two pointers and an `int`, padded to pointer
alignment (12 on the 32-bit ARM of the pcDuino, 24 on a 64-bit host). -/
def sizeofFuncInfo (ptrBytes : Nat) : Nat :=
  ((2 * ptrBytes + 4 + (ptrBytes - 1)) / ptrBytes) * ptrBytes

/-- Line 97: `int OSMinStkSize(){ return( sizeof( FuncInfo ) ); }`. -/
def OSMinStkSize (ptrBytes : Nat) : Nat := sizeofFuncInfo ptrBytes

/-- Pointer minus a byte count, in the address arithmetic of the target
(modulo `2 ^ (8 * ptrBytes)`). -/
def ptrSub (ptrBytes p n : Nat) : Nat :=
  (p + 2 ^ (8 * ptrBytes) - n % 2 ^ (8 * ptrBytes)) % 2 ^ (8 * ptrBytes)

/-- Lines 258-265, `OSTaskStkInit`: the record is placed `sizeof(FuncInfo)`
bytes below `ptos`; its fields `pFunc` and `pArgs` are written, `nThreadIdx`
is left as it was; the address of the record is returned.  `opt` is unused. -/
def OSTaskStkInit (ptrBytes task pdata ptos _opt : Nat) (mem : Mem) : Nat × Mem :=
  let pFuncInfo := ptrSub ptrBytes ptos (sizeofFuncInfo ptrBytes)
  let m1 : Mem := Function.update mem pFuncInfo { mem pFuncInfo with pFunc := task }
  let m2 : Mem := Function.update m1 pFuncInfo { m1 pFuncInfo with pArgs := pdata }
  (pFuncInfo, m2)

/-- Addresses of the bytes stored to by lines 261-262 of `OSTaskStkInit`: the
pointer fields `pFunc` (offset 0) and `pArgs` (offset `ptrBytes`) of the
record at `ptos - sizeof(FuncInfo)`. -/
def OSTaskStkInit_stores (ptrBytes ptos : Nat) : List Nat :=
  let pFuncInfo := ptrSub ptrBytes ptos (sizeofFuncInfo ptrBytes)
  (List.range ptrBytes).map (fun k => pFuncInfo + k) ++
    (List.range ptrBytes).map (fun k => pFuncInfo + ptrBytes + k)

/-- Modelled from the spec: `OSTaskCreate` belongs to the kernel, which is not
among the sources; the stack argument of the caller reaches `OSTaskStkInit`
as `ptos`.  This is the call of app/sample.c line 84, `OSTaskCreate( MyTask,
sTask1, (void*)Stk1, 4 )`; `stk` is the address of the array `Stk1` of
`OSMinStkSize()` bytes declared on line 70. -/
def sample_OSTaskStkInit (ptrBytes task pdata stk : Nat) (mem : Mem) : Nat × Mem :=
  OSTaskStkInit ptrBytes task pdata stk 0 mem

/-- The region reserved by `INT8U Stk1[ OSMinStkSize() ]` at address `stk`. -/
def inRegion (ptrBytes stk a : Nat) : Bool :=
  decide (stk ≤ a) && decide (a < stk + OSMinStkSize ptrBytes)

/-! ## Global state of the port (os_cpu_c.c 66-88) -/

/-- Global variables of os_cpu_c.c together with the heap. -/
structure Port where
  mem : Mem
  nNumThreadsCreated : Nat
  nNumThreadsStarted : Nat
  /-- Flag of cell `i`: `pthread_cond_init` was called on `grcvThread[i]`. -/
  grcvThread : Nat → Bool
  /-- Cell `i` holds the start argument of the thread created into `threadTask[i]`. -/
  threadTask : Nat → Option Nat
  pF : Nat

/-- Lines 486-490 of `OSTCBInitHook`: the record found through the TCB gets
the current value of the creation counter as its index; the counter is
incremented. -/
def OSTCBInitHook_assign (ptcb : OS_TCB) (s : Port) : Port :=
  let pFuncInfo := ptcb.OSTCBStkPtr
  { s with
    mem := Function.update s.mem pFuncInfo
      { s.mem pFuncInfo with nThreadIdx := s.nNumThreadsCreated }
    nNumThreadsCreated := s.nNumThreadsCreated + 1 }

/-- Lines 493-494 of `OSTCBInitHook`: the slot condition with the index stored
in the record is initialised and a thread running `ThreadWrapper` on the
record is created into the same slot of `threadTask`.  No bound is tested and
the results of the pthread calls are not looked at. -/
def OSTCBInitHook_spawn (ptcb : OS_TCB) (s : Port) : Port :=
  let pFuncInfo := ptcb.OSTCBStkPtr
  let idx := (s.mem pFuncInfo).nThreadIdx
  { s with
    grcvThread := Function.update s.grcvThread idx true
    threadTask := Function.update s.threadTask idx (some pFuncInfo) }

/-- Index `i` names an entry of the slot arrays `grcvThread` and `threadTask`,
which are declared with `OS_LOWEST_PRIO` entries (lines 74 and 77). -/
def validSlot ( OS_LOWEST_PRIO i : Nat) : Bool := decide (i < OS_LOWEST_PRIO)

/-- Lines 482-496, `OSTCBInitHook`. -/
def OSTCBInitHook (ptcb : OS_TCB) (s : Port) : Port :=
  OSTCBInitHook_spawn ptcb (OSTCBInitHook_assign ptcb s)

/-- Successive calls of `OSTCBInitHook`, one per record address of the list. -/
def registerAll (records : List Nat) (s : Port) : Port :=
  records.foldl (fun st p => OSTCBInitHook ⟨p⟩ st) s

/-- Lines 468-469 of `ThreadWrapper`, executed after `pthread_cond_wait` has
returned: the global `pF` is loaded from the record and called with the
argument of the record.  The result is the new state and the call made
(function, argument). -/
def ThreadWrapper_call (pTaskInfo : Nat) (s : Port) : Port × Nat × Nat :=
  let s1 := { s with pF := (s.mem pTaskInfo).pFunc }
  (s1, s1.pF, (s1.mem pTaskInfo).pArgs)

/-- State of the port after `InitLinuxPort`, before any task is created. -/
def Port.init (mem : Mem) : Port :=
  { mem := mem, nNumThreadsCreated := 0, nNumThreadsStarted := 0,
    grcvThread := fun _ => false, threadTask := fun _ => none, pF := 0 }

/-! ## Critical sections (os_cpu.h 41-43, 67-71) -/

/-- A `sigset_t`: the set of signal numbers it contains. -/
abbrev SigSet := Finset Nat

/-- Signal number of the tick, `SIGALRM` on Linux. -/
def SIGALRM : Nat := 14

/-- The `how` argument of `sigprocmask`. -/
inductive How
  | SIG_BLOCK
  | SIG_UNBLOCK
  | SIG_SETMASK
deriving DecidableEq, Repr

/-- Effect of `sigprocmask(how, &set, _)` on the mask of the calling thread. -/
def sigprocmask (how : How) (set mask : SigSet) : SigSet :=
  match how with
  | .SIG_BLOCK => mask ∪ set
  | .SIG_UNBLOCK => mask \ set
  | .SIG_SETMASK => set

/-- Signal state of one thread: its mask and the save variables `new_cpu_sr`
that `OS_CPU_SR cpu_sr` declares, one per function scope (scopes are numbered). -/
structure SigState where
  mask : SigSet
  new_cpu_sr : Nat → SigSet

/-- Line 68 of os_cpu.h, `OS_ENTER_CRITICAL()`, in the scope whose save
variable is number `v`: the mask becomes the set holding `SIGALRM` alone and
the previous mask is stored in `new_cpu_sr`. -/
def OS_ENTER_CRITICAL (v : Nat) (t : SigState) : SigState :=
  let mask : SigSet := insert SIGALRM ∅
  { mask := sigprocmask .SIG_SETMASK mask t.mask
    new_cpu_sr := Function.update t.new_cpu_sr v t.mask }

/-- Line 71 of os_cpu.h, `OS_EXIT_CRITICAL()`, in the scope whose save
variable is number `v`: the mask becomes the content of `new_cpu_sr`. -/
def OS_EXIT_CRITICAL (v : Nat) (t : SigState) : SigState :=
  { t with mask := sigprocmask .SIG_SETMASK (t.new_cpu_sr v) t.mask }

/-- Lines 521-525 of `InitLinuxPort`: `SIGALRM` is added to the mask of the
calling (main) thread. -/
def InitLinuxPort_mask (t : SigState) : SigState :=
  let set : SigSet := insert SIGALRM ∅
  { t with mask := sigprocmask .SIG_BLOCK set t.mask }

/-- Lines 463-466 of `ThreadWrapper`: `SIGALRM` is removed from the mask. -/
def ThreadWrapper_unblock (t : SigState) : SigState :=
  let set : SigSet := insert SIGALRM ∅
  { t with mask := sigprocmask .SIG_UNBLOCK set t.mask }

/-- A pending tick can be delivered to a thread when `SIGALRM` is not in its mask. -/
def tickDeliverable (t : SigState) : Prop := SIGALRM ∉ t.mask

instance (t : SigState) : Decidable (tickDeliverable t) := by
  unfold tickDeliverable; infer_instance

/-- Code of one thread as far as the signal mask is concerned: code that does
not touch the mask, a critical section (`OS_ENTER_CRITICAL(); body;
OS_EXIT_CRITICAL();` with save variable `v`), and sequencing. -/
inductive Code
  | work
  | crit (v : Nat) (body : Code)
  | seq (a b : Code)
deriving DecidableEq, Repr

/-- Signal state after running a piece of code. -/
def Code.run : Code → SigState → SigState
  | .work, t => t
  | .crit v body, t => OS_EXIT_CRITICAL v (body.run (OS_ENTER_CRITICAL v t))
  | .seq a b, t => b.run (a.run t)

/-- Signal states at the program points passed while running a piece of code:
the state at its start, after every statement inside it, and at its end. -/
def Code.points : Code → SigState → List SigState
  | .work, t => [t]
  | .crit v body, t =>
      t :: body.points (OS_ENTER_CRITICAL v t) ++
        [OS_EXIT_CRITICAL v (body.run (OS_ENTER_CRITICAL v t))]
  | .seq a b, t => a.points t ++ b.points (a.run t)

/-- Save variables used by the critical sections of a piece of code. -/
def Code.vars : Code → List Nat
  | .work => []
  | .crit v body => v :: body.vars
  | .seq a b => a.vars ++ b.vars

/-! ## The threads of the port as a transition system

One step is one statement of one thread.  `pthread_mutex_lock` can be taken
only while `mutThread` is free; `pthread_cond_wait` releases `mutThread`,
blocks until the condition is signalled and returns once it has taken
`mutThread` again (no wake-up without a signal); `pthread_cond_signal`
unblocks the threads blocked on the condition (the invariants show that a slot
condition never has more than one).  Each task has a record of its own: a
registration names an address no earlier registration has named. -/

/-- Identity of a thread: the thread of `main`, or the `i`-th task thread
created by `pthread_create` (counted from 0). -/
inductive Tid
  | main
  | task (i : Nat)
deriving DecidableEq, Repr

/-- Program points of a task thread, in `ThreadWrapper` (lines 443-470) and in
`OSIntCtxSw` (lines 347-368). -/
inductive TPc
  /-- Created by `pthread_create`, before line 446. -/
  | spawned
  /-- After line 446, before `pthread_mutex_lock` of line 449. -/
  | entry
  /-- Holds `mutThread`, before line 452. -/
  | locked
  /-- After `nNumThreadsStarted++`, before the test of line 455. -/
  | counted
  /-- After lines 455-456, before `pthread_cond_wait` of line 459. -/
  | ready
  /-- Blocked in `pthread_cond_wait` on `grcvThread[c]`; `mutThread` released. -/
  | parked (c : Nat)
  /-- Signalled; still inside `pthread_cond_wait`, taking `mutThread` again. -/
  | woken
  /-- Returned from `pthread_cond_wait`, holds `mutThread` (before line 460 or 367). -/
  | resumed
  /-- After the unlock: lines 463-469, the task code, the tick handler. -/
  | running
  /-- In `OSIntCtxSw`, holds `mutThread`, before line 353. -/
  | swLocked
  /-- After lines 353-358, before line 361; the two pointers read there. -/
  | swSignal (pFuncInfoNew pFuncInfoOld : Nat)
  /-- After line 361, before line 364. -/
  | swWait (pFuncInfoOld : Nat)
deriving DecidableEq, Repr

/-- Program points of the main thread: task creation, then `OSStartHighRdy`
(lines 311-336). -/
inductive MPc
  /-- Before `OSStart`: between calls of `OSTCBInitHook`. -/
  | init
  /-- In `OSTCBInitHook` on the record `p`, after line 490, before line 493. -/
  | hook (p : Nat)
  /-- In `OSStartHighRdy`, after lines 313-314, before the lock of line 317. -/
  | start
  /-- Holds `mutThread`, before the test of line 318. -/
  | check
  /-- Blocked in `pthread_cond_wait` on `cvThreadWrapper` (line 319). -/
  | barrier
  /-- Signalled; still inside `pthread_cond_wait`, taking `mutThread` again. -/
  | barrierWoken
  /-- Past the test or the wait, holds `mutThread`, before line 320. -/
  | passed
  /-- After line 320, before `InitTick`, line 326 and the lock of line 329. -/
  | tick
  /-- Holds `mutThread`, before the signal of line 330; `p` was read on line 326. -/
  | dispatch (p : Nat)
  /-- After the signal of line 330, before line 331. -/
  | signalled
  /-- In `while(1)` of line 334. -/
  | spin
deriving DecidableEq, Repr

/-- A task thread: the argument `pTaskInfo` of `ThreadWrapper`, its local
`nThreadIdx` (set by line 446) and its program point. -/
structure Thread where
  pTaskInfo : Nat
  nThreadIdx : Nat
  pc : TPc
deriving DecidableEq, Repr

/-- State of the process: the globals of the port, the kernel variables the
port reads (`OSTCBCur` is represented by its `OSTCBStkPtr`), the owner of
`mutThread`, the threads, and two counters of events: the signals sent to
`cvThreadWrapper` and the slot indices signalled by `OSStartHighRdy`. -/
structure Sys where
  port : Port
  OSTCBCur : Nat
  OSRunning : Bool
  alarmArmed : Bool
  mutThread : Option Tid
  main : MPc
  nThreads : Nat
  thread : Nat → Thread
  barrierSignals : Nat
  startSignals : List Nat

/-- Effect of `pthread_cond_signal(&grcvThread[c])` on the task threads. -/
def condSignal (c : Nat) (thread : Nat → Thread) : Nat → Thread :=
  fun j => if (thread j).pc = .parked c then { thread j with pc := .woken } else thread j

/-- Thread `i` moves to program point `pc`. -/
def Sys.setPc (s : Sys) (i : Nat) (pc : TPc) : Sys :=
  { s with thread := Function.update s.thread i { s.thread i with pc := pc } }

/-- No task thread was created on the record `p`. -/
def Sys.fresh (s : Sys) (p : Nat) : Bool :=
  (List.range s.nThreads).all (fun j => decide ((s.thread j).pTaskInfo ≠ p))

/-- Next statement of task thread `i`.  `highRdy` is the `OSTCBStkPtr` of the
kernel variable `OSTCBHighRdy`, looked at on line 353 only.  The result is
`none` when the thread does not exist or cannot move (blocked). -/
def taskStep (s : Sys) (i highRdy : Nat) : Option Sys :=
  if i < s.nThreads then
    match (s.thread i).pc with
    | .spawned =>
        some { s with thread := Function.update s.thread i (
                { s.thread i with
                  nThreadIdx := (s.port.mem (s.thread i).pTaskInfo).nThreadIdx
                  pc := .entry }) }
    | .entry =>
        if s.mutThread = none then
          some { (s.setPc i .locked) with mutThread := some (.task i) }
        else none
    | .locked =>
        some { (s.setPc i .counted) with
               port := { s.port with nNumThreadsStarted := s.port.nNumThreadsStarted + 1 } }
    | .counted =>
        if s.port.nNumThreadsCreated = s.port.nNumThreadsStarted then
          some { (s.setPc i .ready) with
                 barrierSignals := s.barrierSignals + 1
                 main := if s.main = .barrier then .barrierWoken else s.main }
        else some (s.setPc i .ready)
    | .ready =>
        some { (s.setPc i (.parked (s.thread i).nThreadIdx)) with mutThread := none }
    | .parked _ => none
    | .woken =>
        if s.mutThread = none then
          some { (s.setPc i .resumed) with mutThread := some (.task i) }
        else none
    | .resumed => some { (s.setPc i .running) with mutThread := none }
    | .running =>
        if s.mutThread = none then
          some { (s.setPc i .swLocked) with mutThread := some (.task i) }
        else none
    | .swLocked =>
        some { (s.setPc i (.swSignal highRdy s.OSTCBCur)) with OSTCBCur := highRdy }
    | .swSignal pNew pOld =>
        some { s with thread := Function.update (
                condSignal (s.port.mem pNew).nThreadIdx s.thread) i (
                { s.thread i with pc := .swWait pOld }) }
    | .swWait pOld =>
        some { (s.setPc i (.parked (s.port.mem pOld).nThreadIdx)) with mutThread := none }
  else none

/-- Next statement of the main thread inside `OSTCBInitHook` and
`OSStartHighRdy`; `none` when it cannot move. -/
def mainStep (s : Sys) : Option Sys :=
  match s.main with
  | .init => none
  | .hook p =>
      some { s with
             port := OSTCBInitHook_spawn ⟨p⟩ s.port
             thread := Function.update s.thread s.nThreads (
               { pTaskInfo := p, nThreadIdx := 0, pc := .spawned })
             nThreads := s.nThreads + 1
             main := .init }
  | .start =>
      if s.mutThread = none then some { s with mutThread := some .main, main := .check }
      else none
  | .check =>
      if s.port.nNumThreadsCreated ≠ s.port.nNumThreadsStarted then
        some { s with mutThread := none, main := .barrier }
      else some { s with main := .passed }
  | .barrier => none
  | .barrierWoken =>
      if s.mutThread = none then some { s with mutThread := some .main, main := .passed }
      else none
  | .passed => some { s with mutThread := none, main := .tick }
  | .tick =>
      if s.mutThread = none then
        some { s with alarmArmed := true, mutThread := some .main, main := .dispatch s.OSTCBCur }
      else none
  | .dispatch p =>
      some { s with
             thread := condSignal (s.port.mem p).nThreadIdx s.thread
             startSignals := s.startSignals ++ [(s.port.mem p).nThreadIdx]
             main := .signalled }
  | .signalled => some { s with mutThread := none, main := .spin }
  | .spin => some s

/-- What can happen next in the process. -/
inductive Act
  /-- The main thread enters `OSTCBInitHook` for a task whose record is `p`
  and runs it up to line 490. -/
  | register (p : Nat)
  /-- The main thread calls `OSStart`: the kernel sets `OSTCBCur` to the task
  whose record is `p` and calls `OSStartHighRdy`, which runs lines 313-314. -/
  | osStart (p : Nat)
  /-- The main thread runs its next statement. -/
  | main
  /-- Task thread `i` runs its next statement. -/
  | task (i highRdy : Nat)
deriving DecidableEq, Repr

/-- One step of the process. -/
def step (s : Sys) : Act → Option Sys
  | .register p =>
      if s.main = .init ∧ s.fresh p = true then
        some { s with port := OSTCBInitHook_assign ⟨p⟩ s.port, main := .hook p }
      else none
  | .osStart p =>
      if s.main = .init then
        some { s with OSTCBCur := p, OSRunning := true, main := .start }
      else none
  | .main => mainStep s
  | .task i highRdy => taskStep s i highRdy

/-- A sequence of steps; `none` when one of them is not possible. -/
def run : Sys → List Act → Option Sys
  | s, [] => some s
  | s, a :: as =>
      match step s a with
      | none => none
      | some s1 => run s1 as

/-- State of the process after `OSInit` (`InitLinuxPort`), before any task is
created. -/
def Sys.init (mem : Mem) : Sys :=
  { port := Port.init mem, OSTCBCur := 0, OSRunning := false, alarmArmed := false,
    mutThread := none, main := .init, nThreads := 0,
    thread := fun _ => { pTaskInfo := 0, nThreadIdx := 0, pc := .spawned },
    barrierSignals := 0, startSignals := [] }

/-- Number of task threads among the first `n` whose program point satisfies `q`. -/
def countPc (q : TPc → Bool) (thread : Nat → Thread) : Nat → Nat
  | 0 => 0
  | n + 1 => countPc q thread n + (if q (thread n).pc then 1 else 0)

/-- The thread is outside every condition wait: it is not inside a call of
`pthread_cond_wait`. -/
def TPc.outsideWait : TPc → Bool
  | .parked _ => false
  | .woken => false
  | _ => true

/-- The thread has executed `nNumThreadsStarted++` (line 452). -/
def TPc.hasCounted : TPc → Bool
  | .spawned => false
  | .entry => false
  | .locked => false
  | _ => true

/-- The thread is at a point where it holds `mutThread`. -/
def TPc.holds : TPc → Bool
  | .locked => true
  | .counted => true
  | .ready => true
  | .resumed => true
  | .swLocked => true
  | .swSignal _ _ => true
  | .swWait _ => true
  | _ => false

/-- The main thread is at a point where it holds `mutThread`. -/
def MPc.holds : MPc → Bool
  | .check => true
  | .passed => true
  | .dispatch _ => true
  | .signalled => true
  | _ => false

/-- The main thread has got past the barrier of lines 317-320 of
`OSStartHighRdy`. -/
def MPc.pastBarrier : MPc → Bool
  | .passed => true
  | .tick => true
  | .dispatch _ => true
  | .signalled => true
  | .spin => true
  | _ => false

/-! ## Invariant of the transition system -/

/-- Program points of `ThreadWrapper` before its `pthread_cond_wait`. -/
def TPc.preamble : TPc → Bool
  | .spawned => true
  | .entry => true
  | .locked => true
  | .counted => true
  | .ready => true
  | _ => false

/-- Program points of `ThreadWrapper` at which the local `nThreadIdx` is set
and the wait has not begun. -/
def TPc.hasIdx : TPc → Bool
  | .entry => true
  | .locked => true
  | .counted => true
  | .ready => true
  | _ => false

/-- Program points after a return from `pthread_cond_wait`. -/
def TPc.active : TPc → Bool
  | .resumed => true
  | .running => true
  | .swLocked => true
  | .swSignal _ _ => true
  | .swWait _ => true
  | _ => false

/-- Program points at which the thread is the one named by `OSTCBCur`. -/
def TPc.atCur : TPc → Bool
  | .woken => true
  | .resumed => true
  | .running => true
  | .swLocked => true
  | _ => false

/-- The main thread is inside `OSTCBInitHook`, between lines 490 and 493. -/
def MPc.inHook : MPc → Bool
  | .hook _ => true
  | _ => false

/-- The main thread has been signalled on `cvThreadWrapper` or has got past
the barrier. -/
def MPc.barrierDone : MPc → Bool
  | .barrierWoken => true
  | m => m.pastBarrier

/-- The main thread is still creating tasks. -/
def MPc.registering : MPc → Bool
  | .init => true
  | .hook _ => true
  | _ => false

/-- Index stored in the record of the task named by `OSTCBCur`. -/
def Sys.curIdx (s : Sys) : Nat := (s.port.mem s.OSTCBCur).nThreadIdx

/-- What holds of task thread `i` in every reachable state. -/
structure ThreadOk (s : Sys) (i : Nat) : Prop where
  recIdx : (s.port.mem (s.thread i).pTaskInfo).nThreadIdx = i
  pre : (s.thread i).pc.preamble = true → s.main.pastBarrier = false
  loc : (s.thread i).pc.hasIdx = true → (s.thread i).nThreadIdx = i
  own : ∀ c, (s.thread i).pc = .parked c → c = i
  wok : (s.thread i).pc = .woken → s.main = .signalled ∨ s.main = .spin
  act : (s.thread i).pc.active = true → s.main = .spin
  cur : (s.thread i).pc.atCur = true → s.curIdx = i
  free : (s.thread i).pc = .running → s.mutThread = none
  sig : ∀ pn po, (s.thread i).pc = .swSignal pn po →
    pn = s.OSTCBCur ∧ (s.port.mem po).nThreadIdx = i
  wai : ∀ po, (s.thread i).pc = .swWait po → (s.port.mem po).nThreadIdx = i

/-- Invariant of the process. -/
structure Inv (s : Sys) : Prop where
  len : s.nThreads + (if s.main.inHook = true then 1 else 0) = s.port.nNumThreadsCreated
  cnt : s.port.nNumThreadsStarted = countPc TPc.hasCounted s.thread s.nThreads
  mutM : s.main.holds = true ↔ s.mutThread = some .main
  mutT : ∀ i, (s.thread i).pc.holds = true ↔ s.mutThread = some (.task i)
  dormant : ∀ i, s.nThreads ≤ i → (s.thread i).pc = .spawned
  hookRec : ∀ p, s.main = .hook p →
    (s.port.mem p).nThreadIdx = s.nThreads ∧
      ∀ j, j < s.nThreads → (s.thread j).pTaskInfo ≠ p
  eqStarted : s.main.barrierDone = true →
    s.port.nNumThreadsStarted = s.port.nNumThreadsCreated
  dispCur : ∀ p, s.main = .dispatch p → p = s.OSTCBCur
  thr : ∀ i, i < s.nThreads → ThreadOk s i

/-- How the main thread's program point constrains a task thread's. -/
def MainOk (m : MPc) (pc : TPc) : Prop :=
  (pc.preamble = true → m.pastBarrier = false) ∧
  (pc = .woken → m = .signalled ∨ m = .spin) ∧
  (pc.active = true → m = .spin)

/-! ## Sample executions -/

/-- A heap whose objects are all zero. -/
def demoMem : Mem := fun _ => ⟨0, 0, 0⟩

/-- The five statements of `ThreadWrapper` from thread creation to the wait of
line 459, run by task thread `i`. -/
def wrapperToWait (i : Nat) : List Act :=
  [.task i 0, .task i 0, .task i 0, .task i 0, .task i 0]

/-- Two tasks (records at 100 and 200) are created; the wrapper of each runs up
to its wait before the next statement of `main`. -/
def demoCreate : List Act :=
  [.register 100, .main] ++ wrapperToWait 0 ++ [.register 200, .main] ++ wrapperToWait 1

/-- After `demoCreate`, `OSStart` with the task of record 200 as `OSTCBCur`. -/
def demoStart : List Act := demoCreate ++ [.osStart 200]

/-- After `demoStart`, `OSStartHighRdy` up to the point before line 330. -/
def demoDispatch : List Act := demoStart ++ [.main, .main, .main, .main]

/-- After `demoDispatch`, the signal and unlock of lines 330-331; the task
thread signalled returns from its wait and unlocks. -/
def demoRun : List Act := demoDispatch ++ [.main, .main, .task 1 0, .task 1 0]

/-- One task is created and `OSStartHighRdy` reaches its wait on
`cvThreadWrapper` before the wrapper has run. -/
def demoEarlyStart : List Act := [.register 100, .main, .osStart 100, .main, .main]

/-- State reached by a sequence of steps from the initial state with
`demoMem` (the initial state itself when a step is not possible). -/
def demoState (acts : List Act) : Sys :=
  (run (Sys.init demoMem) acts).getD (Sys.init demoMem)

/-- The thread is blocked in `pthread_cond_wait` and has not been signalled. -/
def TPc.isParked : TPc → Bool
  | .parked _ => true
  | _ => false

/-! ## Nested critical sections -/

/-- Signal state right after the inner `OS_EXIT_CRITICAL` of a nest: the outer
section (save variable `v`) has been entered and the code `pre` has run; then
the inner section (save variable `w`, body `inner`) has been entered, run and
exited.  The outer `OS_EXIT_CRITICAL` has not run yet. -/
def afterInnerExit (v w : Nat) (pre inner : Code) (t : SigState) : SigState :=
  OS_EXIT_CRITICAL w (inner.run (OS_ENTER_CRITICAL w (pre.run (OS_ENTER_CRITICAL v t))))

/-! ## The context switch as one call -/

/-- Lines 347-364 of `OSIntCtxSw`, run by task thread `i` while no other thread
moves: the lock of line 350, lines 353-358, the signal of line 361 and the
wait of line 364, in which the thread blocks.  `highRdy` is the `OSTCBStkPtr`
of `OSTCBHighRdy`.  The result is `none` when the thread is not running task
code or cannot take `mutThread`. -/
def OSIntCtxSw (s : Sys) (i highRdy : Nat) : Option Sys :=
  if (s.thread i).pc = .running then
    run s [.task i highRdy, .task i highRdy, .task i highRdy, .task i highRdy]
  else none

/-- Lines 380-383: `OSCtxSw` calls `OSIntCtxSw`. -/
def OSCtxSw (s : Sys) (i highRdy : Nat) : Option Sys :=
  OSIntCtxSw s i highRdy

/-- Line 77 of os_cpu.h: `OS_TASK_SW()` is `{ OSCtxSw(); }`. -/
def OS_TASK_SW (s : Sys) (i highRdy : Nat) : Option Sys :=
  OSCtxSw s i highRdy

/-- After `demoRun` (the thread of slot 1 runs its task, `OSTCBCur` is the task
of record 200), that thread switches to the task of record 100. -/
def demoSwitch : Option Sys := OSIntCtxSw (demoState demoRun) 1 100

/-! ## Theorems -/

/-! ### Heap and registration lemmas -/

theorem OSTCBInitHook_created (ptcb : OS_TCB) (s : Port) :
    (OSTCBInitHook ptcb s).nNumThreadsCreated = s.nNumThreadsCreated + 1 := by
  simp [OSTCBInitHook, OSTCBInitHook_spawn, OSTCBInitHook_assign]

theorem OSTCBInitHook_mem_self (ptcb : OS_TCB) (s : Port) :
    (OSTCBInitHook ptcb s).mem ptcb.OSTCBStkPtr =
      { s.mem ptcb.OSTCBStkPtr with nThreadIdx := s.nNumThreadsCreated } := by
  simp [OSTCBInitHook, OSTCBInitHook_spawn, OSTCBInitHook_assign]

theorem OSTCBInitHook_mem_other (ptcb : OS_TCB) (s : Port) (a : Nat)
    (h : a ≠ ptcb.OSTCBStkPtr) : (OSTCBInitHook ptcb s).mem a = s.mem a := by
  simp [OSTCBInitHook, OSTCBInitHook_spawn, OSTCBInitHook_assign, Function.update, h]

theorem registerAll_append (l1 l2 : List Nat) (s : Port) :
    registerAll (l1 ++ l2) s = registerAll l2 (registerAll l1 s) := by
  simp [registerAll, List.foldl_append]

theorem registerAll_created (l : List Nat) (s : Port) :
    (registerAll l s).nNumThreadsCreated = s.nNumThreadsCreated + l.length := by
  induction l generalizing s with
  | nil => simp [registerAll]
  | cons p l ih =>
    have h := ih (OSTCBInitHook ⟨p⟩ s)
    simp only [registerAll, List.foldl_cons] at h ⊢
    rw [h, OSTCBInitHook_created, List.length_cons]
    omega

theorem registerAll_mem_other (l : List Nat) (s : Port) (a : Nat) (h : a ∉ l) :
    (registerAll l s).mem a = s.mem a := by
  induction l generalizing s with
  | nil => simp [registerAll]
  | cons p l ih =>
    have hp : a ≠ p := fun e => h (by simp [e])
    have hl : a ∉ l := fun e => h (by simp [e])
    have h1 := ih (OSTCBInitHook ⟨p⟩ s) hl
    simp only [registerAll, List.foldl_cons] at h1 ⊢
    rw [h1, OSTCBInitHook_mem_other _ _ _ hp]

/-! ### C1: round trip of the bootstrap record -/

/-- C1. For every entry point `E`, argument `A` and stack-top pointer: after
`OSTaskStkInit` has written the record and `OSTCBInitHook` has registered the
task owning it (a TCB whose `OSTCBStkPtr` is the returned handle), the thread
is created on that record, `ThreadWrapper` calls `E` with exactly `A` once its
wait has returned, and registration has changed only the field `nThreadIdx`
of the record. -/
theorem bootstrap_round_trip (ptrBytes E A ptos opt : Nat) (s : Port) :
    (OSTCBInitHook ⟨(OSTaskStkInit ptrBytes E A ptos opt s.mem).1⟩
        { s with mem := (OSTaskStkInit ptrBytes E A ptos opt s.mem).2 }).threadTask
        s.nNumThreadsCreated = some (OSTaskStkInit ptrBytes E A ptos opt s.mem).1 ∧
    (ThreadWrapper_call (OSTaskStkInit ptrBytes E A ptos opt s.mem).1
        (OSTCBInitHook ⟨(OSTaskStkInit ptrBytes E A ptos opt s.mem).1⟩
          { s with mem := (OSTaskStkInit ptrBytes E A ptos opt s.mem).2 })).2 = (E, A) ∧
    (OSTCBInitHook ⟨(OSTaskStkInit ptrBytes E A ptos opt s.mem).1⟩
        { s with mem := (OSTaskStkInit ptrBytes E A ptos opt s.mem).2 }).mem
        (OSTaskStkInit ptrBytes E A ptos opt s.mem).1 =
      { pFunc := E, pArgs := A, nThreadIdx := s.nNumThreadsCreated } := by
  simp [OSTaskStkInit, OSTCBInitHook, OSTCBInitHook_spawn, OSTCBInitHook_assign,
    ThreadWrapper_call]

/-! ### C5: slot index assignment -/

/-- C5. For every sequence of calls of `OSTCBInitHook` on pairwise distinct
records, starting from `nNumThreadsCreated = 0`: the k-th call (0-based) stores
index `k` in its record and leaves the counter at `k + 1`; no later
registration changes that index; at the end the indices, read in registration
order, are exactly `0, 1, .., n-1` (hence pairwise distinct). -/
theorem slot_index_assignment (records : List Nat) (s : Port)
    (hd : records.Nodup) (h0 : s.nNumThreadsCreated = 0) :
    (∀ k (hk : k < records.length),
      ((registerAll (records.take (k + 1)) s).mem records[k]).nThreadIdx = k ∧
      (registerAll (records.take (k + 1)) s).nNumThreadsCreated = k + 1 ∧
      ∀ m, k + 1 ≤ m →
        ((registerAll (records.take m) s).mem records[k]).nThreadIdx = k) ∧
    records.map (fun p => ((registerAll records s).mem p).nThreadIdx) =
      List.range records.length := by
  have key : ∀ k (hk : k < records.length), ∀ m, k + 1 ≤ m →
      ((registerAll (records.take m) s).mem records[k]).nThreadIdx = k := by
    intro k hk m hm
    have hsplit : records.take m =
        records.take k ++ (records[k] :: (records.take m).drop (k + 1)) := by
      have h1 : (records.take m).take k = records.take k := by
        rw [List.take_take]; congr 1; omega
      have hk2 : k < (records.take m).length := by
        rw [List.length_take]; omega
      have h2 : (records.take m)[k] = records[k] := by
        simp [List.getElem_take]
      rw [← h1, ← h2, List.getElem_cons_drop, List.take_append_drop]
    have hnot : records[k] ∉ (records.take m).drop (k + 1) := by
      intro hmem
      have hnd : (records.take m).Nodup := hd.sublist (List.take_sublist _ _)
      rw [hsplit] at hnd
      have := (List.nodup_append.1 hnd).2.1
      exact (List.nodup_cons.1 this).1 (by simpa using hmem)
    rw [hsplit, registerAll_append]
    have hcons : registerAll (records[k] :: (records.take m).drop (k + 1))
        (registerAll (records.take k) s) =
        registerAll ((records.take m).drop (k + 1))
          (OSTCBInitHook ⟨records[k]⟩ (registerAll (records.take k) s)) := by
      simp [registerAll]
    have hlen : (records.take k).length = k := by
      rw [List.length_take]; omega
    rw [hcons, registerAll_mem_other _ _ _ hnot, OSTCBInitHook_mem_self,
      registerAll_created, h0, hlen]
    simp
  refine ⟨fun k hk => ⟨key k hk (k + 1) le_rfl, ?_, key k hk⟩, ?_⟩
  · rw [registerAll_created, h0, List.length_take]; omega
  · apply List.ext_getElem
    · simp
    · intro k h1 h2
      have hk : k < records.length := by simpa using h1
      have := key k hk records.length (by omega)
      rw [List.take_length] at this
      simp [this]

/-- Witness of `slot_index_assignment`: three records at 100, 200 and 300. -/
theorem slot_index_assignment_witness :
    ([100, 200, 300].map
      (fun p => ((registerAll [100, 200, 300] (Port.init (fun _ => ⟨0, 0, 7⟩))).mem p).nThreadIdx) =
      List.range 3) :=
  (slot_index_assignment [100, 200, 300] (Port.init (fun _ => ⟨0, 0, 7⟩))
    (by decide) rfl).2

/-! ### C6: a registration beyond the capacity of the slot arrays -/

/-- C6 (behaviour of the code). `OSTCBInitHook` tests no bound: called when
`nNumThreadsCreated` already equals the number `OS_LOWEST_PRIO` of entries of
the slot arrays, it returns an ordinary state, having stored index
`OS_LOWEST_PRIO` in the record and raised the counter to `OS_LOWEST_PRIO + 1`;
the index it uses for `pthread_cond_init` and `pthread_create` names no entry
of the arrays, and the cells past their end are written. -/
theorem OSTCBInitHook_past_capacity ( OS_LOWEST_PRIO : Nat) (ptcb : OS_TCB) (s : Port)
    (hfull : s.nNumThreadsCreated = OS_LOWEST_PRIO) :
    ((OSTCBInitHook ptcb s).mem ptcb.OSTCBStkPtr).nThreadIdx = OS_LOWEST_PRIO ∧
    (OSTCBInitHook ptcb s).nNumThreadsCreated = OS_LOWEST_PRIO + 1 ∧
    validSlot OS_LOWEST_PRIO ((OSTCBInitHook ptcb s).mem ptcb.OSTCBStkPtr).nThreadIdx = false ∧
    (OSTCBInitHook ptcb s).grcvThread OS_LOWEST_PRIO = true ∧
    (OSTCBInitHook ptcb s).threadTask OS_LOWEST_PRIO = some ptcb.OSTCBStkPtr := by
  subst hfull
  simp [OSTCBInitHook, OSTCBInitHook_spawn, OSTCBInitHook_assign, validSlot]

/-- Witness of `OSTCBInitHook_past_capacity`: arrays of 3 entries, three tasks
registered at 100, 200, 300 and a fourth registration at 400. -/
theorem OSTCBInitHook_past_capacity_witness :
    (registerAll [100, 200, 300] (Port.init (fun _ => ⟨0, 0, 0⟩))).grcvThread 3 = false ∧
    (OSTCBInitHook ⟨400⟩
      (registerAll [100, 200, 300] (Port.init (fun _ => ⟨0, 0, 0⟩)))).grcvThread 3 = true ∧
    (OSTCBInitHook ⟨400⟩
      (registerAll [100, 200, 300] (Port.init (fun _ => ⟨0, 0, 0⟩)))).nNumThreadsCreated = 4 :=
  ⟨by decide,
   (OSTCBInitHook_past_capacity 3 ⟨400⟩
      (registerAll [100, 200, 300] (Port.init (fun _ => ⟨0, 0, 0⟩))) (by decide)).2.2.2.1,
   (OSTCBInitHook_past_capacity 3 ⟨400⟩
      (registerAll [100, 200, 300] (Port.init (fun _ => ⟨0, 0, 0⟩))) (by decide)).2.1⟩

/-! ### C10: where the sample's bootstrap record lands -/

theorem sizeofFuncInfo_ge (ptrBytes : Nat) (hp : 0 < ptrBytes) :
    2 * ptrBytes + 4 ≤ sizeofFuncInfo ptrBytes := by
  unfold sizeofFuncInfo
  have h1 := Nat.div_add_mod (2 * ptrBytes + 4 + (ptrBytes - 1)) ptrBytes
  have h2 := Nat.mod_lt (2 * ptrBytes + 4 + (ptrBytes - 1)) hp
  rw [Nat.mul_comm] at h1
  omega

/-- C10 (behaviour of the code). When the caller reserves `OSMinStkSize()`
bytes at address `stk` and passes `stk` itself as the stack argument, as
app/sample.c does with `Stk1`, the handle returned by `OSTaskStkInit` is
`stk - sizeof(FuncInfo)` and neither the handle nor any byte stored to lies in
the reserved region: all of them are below `stk`. -/
theorem sample_record_below_region (ptrBytes task pdata stk : Nat) (mem : Mem)
    (hp : 0 < ptrBytes) (hlo : sizeofFuncInfo ptrBytes ≤ stk)
    (hhi : stk < 2 ^ (8 * ptrBytes)) :
    (sample_OSTaskStkInit ptrBytes task pdata stk mem).1 + sizeofFuncInfo ptrBytes = stk ∧
    inRegion ptrBytes stk (sample_OSTaskStkInit ptrBytes task pdata stk mem).1 = false ∧
    ∀ a ∈ OSTaskStkInit_stores ptrBytes stk, a < stk ∧ inRegion ptrBytes stk a = false := by
  have hsz := sizeofFuncInfo_ge ptrBytes hp
  have hsub : ptrSub ptrBytes stk (sizeofFuncInfo ptrBytes) =
      stk - sizeofFuncInfo ptrBytes := by
    unfold ptrSub
    have h1 : sizeofFuncInfo ptrBytes % 2 ^ (8 * ptrBytes) = sizeofFuncInfo ptrBytes :=
      Nat.mod_eq_of_lt (by omega)
    rw [h1]
    have h2 : stk + 2 ^ (8 * ptrBytes) - sizeofFuncInfo ptrBytes =
        (stk - sizeofFuncInfo ptrBytes) + 2 ^ (8 * ptrBytes) := by omega
    rw [h2, Nat.add_mod_right]
    exact Nat.mod_eq_of_lt (by omega)
  refine ⟨?_, ?_, ?_⟩
  · simp only [sample_OSTaskStkInit, OSTaskStkInit, hsub]; omega
  · simp only [sample_OSTaskStkInit, OSTaskStkInit, hsub, inRegion]
    simp only [Bool.and_eq_false_imp, decide_eq_true_eq, decide_eq_false_iff_not]
    omega
  · intro a ha
    simp only [OSTaskStkInit_stores, hsub, List.mem_append, List.mem_map,
      List.mem_range] at ha
    have hlt : a < stk := by
      rcases ha with ⟨k, hk, rfl⟩ | ⟨k, hk, rfl⟩ <;> omega
    refine ⟨hlt, ?_⟩
    simp only [inRegion, Bool.and_eq_false_imp, decide_eq_true_eq, decide_eq_false_iff_not]
    omega

/-- Witness of `sample_record_below_region`: 4-byte pointers, `Stk1` at 4096:
the record is written at 4084..4095, the region is 4096..4107. -/
theorem sample_record_below_region_witness :
    (sample_OSTaskStkInit 4 7 9 4096 (fun _ => ⟨0, 0, 0⟩)).1 + sizeofFuncInfo 4 = 4096 ∧
    inRegion 4 4096 (sample_OSTaskStkInit 4 7 9 4096 (fun _ => ⟨0, 0, 0⟩)).1 = false ∧
    (4091 < 4096 ∧ inRegion 4 4096 4091 = false) :=
  ⟨(sample_record_below_region 4 7 9 4096 (fun _ => ⟨0, 0, 0⟩) (by decide) (by decide)
      (by norm_num)).1,
   (sample_record_below_region 4 7 9 4096 (fun _ => ⟨0, 0, 0⟩) (by decide) (by decide)
      (by norm_num)).2.1,
   (sample_record_below_region 4 7 9 4096 (fun _ => ⟨0, 0, 0⟩) (by decide) (by decide)
      (by norm_num)).2.2 4091 (by decide)⟩

/-! ### C8, C9: critical sections and the tick signal -/

theorem OS_ENTER_CRITICAL_mask (v : Nat) (t : SigState) :
    (OS_ENTER_CRITICAL v t).mask = {SIGALRM} := by
  simp [OS_ENTER_CRITICAL, sigprocmask]

/-- Inside a section every mask is `{SIGALRM}`: a piece of code started with
that mask passes only through states with that mask, ends with it, and leaves
in every save variable either its old content or `{SIGALRM}`. -/
theorem Code.run_masked (c : Code) :
    ∀ t : SigState, t.mask = {SIGALRM} →
      (∀ p ∈ c.points t, p.mask = {SIGALRM}) ∧ (c.run t).mask = {SIGALRM} ∧
      ∀ w, (c.run t).new_cpu_sr w = t.new_cpu_sr w ∨
        (c.run t).new_cpu_sr w = {SIGALRM} := by
  induction c with
  | work =>
    intro t ht
    simp [Code.points, Code.run, ht]
  | crit v body ih =>
    intro t ht
    obtain ⟨hp, hm, hs⟩ := ih (OS_ENTER_CRITICAL v t) (OS_ENTER_CRITICAL_mask v t)
    have hv : (body.run (OS_ENTER_CRITICAL v t)).new_cpu_sr v = {SIGALRM} := by
      rcases hs v with h | h
      · rw [h]; simp [OS_ENTER_CRITICAL, ht]
      · exact h
    refine ⟨?_, ?_, ?_⟩
    · intro p hpm
      simp only [Code.points, List.mem_cons, List.mem_append, List.not_mem_nil,
        or_false] at hpm
      rcases hpm with (rfl | hpm) | rfl
      · exact ht
      · exact hp p hpm
      · simpa [OS_EXIT_CRITICAL, sigprocmask] using hv
    · simpa [Code.run, OS_EXIT_CRITICAL, sigprocmask] using hv
    · intro w
      simp only [Code.run, OS_EXIT_CRITICAL]
      rcases hs w with h | h
      · by_cases hw : w = v
        · subst hw; right; exact hv
        · left; rw [h]; simp [OS_ENTER_CRITICAL, Function.update, hw]
      · right; exact h
  | seq a b iha ihb =>
    intro t ht
    obtain ⟨hpa, hma, hsa⟩ := iha t ht
    obtain ⟨hpb, hmb, hsb⟩ := ihb (a.run t) hma
    refine ⟨?_, ?_, ?_⟩
    · intro p hpm
      simp only [Code.points, List.mem_append] at hpm
      rcases hpm with h | h
      · exact hpa p h
      · exact hpb p h
    · simpa [Code.run] using hmb
    · intro w
      simp only [Code.run]
      rcases hsb w with h | h
      · rw [h]; exact hsa w
      · right; exact h

/-- A piece of code leaves alone the save variables its sections do not use. -/
theorem Code.run_new_cpu_sr (c : Code) :
    ∀ (t : SigState) (v : Nat), v ∉ c.vars → (c.run t).new_cpu_sr v = t.new_cpu_sr v := by
  induction c with
  | work => intro t v _; rfl
  | crit w body ih =>
    intro t v hv
    simp only [Code.vars, List.mem_cons, not_or] at hv
    simp only [Code.run, OS_EXIT_CRITICAL]
    rw [ih _ v hv.2]
    simp [OS_ENTER_CRITICAL, Function.update, hv.1]
  | seq a b iha ihb =>
    intro t v hv
    simp only [Code.vars, List.mem_append, not_or] at hv
    simp only [Code.run]
    rw [ihb _ v hv.2, iha _ v hv.1]

/-- C8. For every signal mask the calling thread has beforehand, `SIGALRM` is
blocked after `OS_ENTER_CRITICAL`, and it is blocked at every program point of
the code run up to the matching `OS_EXIT_CRITICAL` (code that leaves the mask
alone and further critical sections, nested or in sequence, with any save
variables): at none of these points can a tick be delivered to the thread. -/
theorem critical_section_masks_tick (t : SigState) (v : Nat) (body : Code) :
    SIGALRM ∈ (OS_ENTER_CRITICAL v t).mask ∧
    ∀ p ∈ body.points (OS_ENTER_CRITICAL v t), SIGALRM ∈ p.mask ∧ ¬ tickDeliverable p := by
  have h := (Code.run_masked body (OS_ENTER_CRITICAL v t) (OS_ENTER_CRITICAL_mask v t)).1
  refine ⟨by simp [OS_ENTER_CRITICAL_mask], fun p hp => ?_⟩
  have := h p hp
  simp [tickDeliverable, this]

/-- C9, counterexample. The main thread has `SIGALRM` blocked by
`InitLinuxPort`; after it has run `OS_ENTER_CRITICAL` and the matching
`OS_EXIT_CRITICAL`, the tick is still not deliverable to it. -/
theorem exit_critical_keeps_tick_blocked :
    ¬ tickDeliverable (OS_EXIT_CRITICAL 0 (OS_ENTER_CRITICAL 0
      (InitLinuxPort_mask { mask := ∅, new_cpu_sr := fun _ => ∅ }))) := by
  decide

/-- C9, amended. The `OS_EXIT_CRITICAL` matching an `OS_ENTER_CRITICAL`
(whose save variable no section in between reuses) puts back the mask the
thread had before the `OS_ENTER_CRITICAL`: afterwards the tick is deliverable
exactly when it was deliverable before the section was entered. -/
theorem exit_critical_restores_mask (t : SigState) (v : Nat) (body : Code)
    (hv : v ∉ body.vars) :
    (Code.run (.crit v body) t).mask = t.mask ∧
    (tickDeliverable (Code.run (.crit v body) t) ↔ tickDeliverable t) := by
  have h : (Code.run (.crit v body) t).mask = t.mask := by
    simp only [Code.run, OS_EXIT_CRITICAL, sigprocmask]
    rw [Code.run_new_cpu_sr body _ v hv]
    simp [OS_ENTER_CRITICAL]
  exact ⟨h, by simp [tickDeliverable, h]⟩

/-- Witness of `exit_critical_restores_mask`: a task thread with an empty mask
runs a section (save variable 0) that contains a nested one (save variable 1). -/
theorem exit_critical_restores_mask_witness :
    (Code.run (.crit 0 (.seq .work (.crit 1 .work)))
      { mask := ∅, new_cpu_sr := fun _ => ∅ }).mask = ∅ ∧
    (tickDeliverable (Code.run (.crit 0 (.seq .work (.crit 1 .work)))
      { mask := ∅, new_cpu_sr := fun _ => ∅ }) ↔
      tickDeliverable { mask := ∅, new_cpu_sr := fun _ => ∅ }) :=
  exit_critical_restores_mask { mask := ∅, new_cpu_sr := fun _ => ∅ } 0
    (.seq .work (.crit 1 .work)) (by decide)

/-! ### Counting program points -/

theorem countPc_congr (q : TPc → Bool) (f g : Nat → Thread) (n : Nat)
    (h : ∀ j, j < n → q (f j).pc = q (g j).pc) : countPc q f n = countPc q g n := by
  induction n with
  | zero => rfl
  | succ n ih =>
    simp only [countPc]
    rw [ih (fun j hj => h j (by omega)), h n (by omega)]

theorem countPc_le (q : TPc → Bool) (f : Nat → Thread) (n : Nat) : countPc q f n ≤ n := by
  induction n with
  | zero => simp [countPc]
  | succ n ih => simp only [countPc]; split <;> omega

theorem countPc_update (q : TPc → Bool) (f : Nat → Thread) (n i : Nat) (t : Thread)
    (hi : i < n) :
    countPc q (Function.update f i t) n + (if q (f i).pc then 1 else 0) =
      countPc q f n + (if q t.pc then 1 else 0) := by
  induction n with
  | zero => omega
  | succ n ih =>
    simp only [countPc]
    by_cases h : i = n
    · subst h
      have := countPc_congr q (Function.update f i t) f i (fun j hj => by
        rw [Function.update_noteq (by omega)])
      rw [this]
      simp
      omega
    · have := ih (by omega)
      rw [Function.update_noteq (Ne.symm h)]
      omega

theorem countPc_eq_all (q : TPc → Bool) (f : Nat → Thread) (n : Nat)
    (h : countPc q f n = n) : ∀ j, j < n → q (f j).pc = true := by
  induction n with
  | zero => intro j hj; omega
  | succ n ih =>
    simp only [countPc] at h
    have hle := countPc_le q f n
    intro j hj
    by_cases hq : q (f n).pc = true
    · simp only [hq, if_true] at h
      by_cases hjn : j = n
      · subst hjn; exact hq
      · exact ih (by omega) j (by omega)
    · simp only [hq] at h
      simp at h
      omega

theorem countPc_le_one (q : TPc → Bool) (f : Nat → Thread) (n : Nat)
    (h : ∀ i j, i < n → j < n → q (f i).pc = true → q (f j).pc = true → i = j) :
    countPc q f n ≤ 1 := by
  induction n with
  | zero => simp [countPc]
  | succ n ih =>
    simp only [countPc]
    have ih1 := ih (fun i j hi hj => h i j (by omega) (by omega))
    by_cases hq : q (f n).pc = true
    · have h0 : countPc q f n = 0 := by
        have : ∀ k, k ≤ n → countPc q f k = 0 := by
          intro k hk
          induction k with
          | zero => rfl
          | succ k ihk =>
            simp only [countPc]
            have hk0 := ihk (by omega)
            by_cases hqk : q (f k).pc = true
            · have := h k n (by omega) (by omega) hqk hq
              omega
            · simp [hqk, hk0]
        exact this n le_rfl
      simp [hq, h0]
    · simp [hq]; exact ih1

/-! ### Preservation of the invariant -/

theorem Inv.transfer {s s1 : Sys} (i : Nat) (hI : Inv s)
    (hn : s1.nThreads = s.nThreads)
    (hmem : s1.port.mem = s.port.mem)
    (hcr : s1.port.nNumThreadsCreated = s.port.nNumThreadsCreated)
    (hthr : ∀ j, j ≠ i → s1.thread j = s.thread j)
    (hdorm : s.nThreads ≤ i → s1.thread i = s.thread i)
    (hpt : (s1.thread i).pTaskInfo = (s.thread i).pTaskInfo)
    (hhook : s1.main.inHook = s.main.inHook ∧ ∀ p, s1.main = .hook p → s.main = .hook p)
    (hcnt : s1.port.nNumThreadsStarted + (if (s.thread i).pc.hasCounted = true then 1 else 0) =
      s.port.nNumThreadsStarted + (if (s1.thread i).pc.hasCounted = true then 1 else 0))
    (hmutM : s1.main.holds = true ↔ s1.mutThread = some .main)
    (hmutI : (s1.thread i).pc.holds = true ↔ s1.mutThread = some (.task i))
    (hmutJ : ∀ j, j ≠ i → (s.mutThread = some (.task j) ↔ s1.mutThread = some (.task j)))
    (heq : s1.main.barrierDone = true →
      s1.port.nNumThreadsStarted = s1.port.nNumThreadsCreated)
    (hdisp : ∀ p, s1.main = .dispatch p → p = s1.OSTCBCur)
    (hi : i < s.nThreads → ThreadOk s1 i)
    (hmain : s1.main = s.main ∨
      ∀ j, j ≠ i → j < s.nThreads → MainOk s1.main (s.thread j).pc)
    (hcur : s1.OSTCBCur = s.OSTCBCur ∨
      ∀ j, j ≠ i → j < s.nThreads → (s.thread j).pc.atCur = false ∧
        ∀ pn po, (s.thread j).pc ≠ .swSignal pn po)
    (hfree : s1.mutThread = none ∨ s1.mutThread = s.mutThread ∨
      ∀ j, j ≠ i → j < s.nThreads → (s.thread j).pc ≠ .running) :
    Inv s1 := by
  obtain ⟨len, cnt, mutM, mutT, dormant, hookRec, eqS, dispCur, thr⟩ := hI
  refine ⟨?_, ?_, hmutM, ?_, ?_, ?_, heq, hdisp, ?_⟩
  · rw [hn, hcr, hhook.1]; exact len
  · rw [hn]
    by_cases hin : i < s.nThreads
    · have h1 := countPc_update TPc.hasCounted s.thread s.nThreads i (s1.thread i) hin
      have h2 : countPc TPc.hasCounted s1.thread s.nThreads =
          countPc TPc.hasCounted (Function.update s.thread i (s1.thread i)) s.nThreads := by
        apply countPc_congr
        intro j _
        by_cases hji : j = i
        · subst hji; simp
        · rw [Function.update_noteq hji, hthr j hji]
      rw [h2]; omega
    · have h2 : countPc TPc.hasCounted s1.thread s.nThreads =
          countPc TPc.hasCounted s.thread s.nThreads := by
        apply countPc_congr
        intro j hj
        rw [hthr j (by omega)]
      rw [hdorm (by omega)] at hcnt
      rw [h2]; omega
  · intro j
    by_cases hji : j = i
    · subst hji; exact hmutI
    · rw [hthr j hji, mutT j]; exact hmutJ j hji
  · intro j hj
    rw [hn] at hj
    by_cases hji : j = i
    · subst hji; rw [hdorm hj]; exact dormant j hj
    · rw [hthr j hji]; exact dormant j hj
  · intro p hp
    have := hookRec p (hhook.2 p hp)
    rw [hn, hmem]
    refine ⟨this.1, fun j hj => ?_⟩
    by_cases hji : j = i
    · subst hji; rw [hpt]; exact this.2 j hj
    · rw [hthr j hji]; exact this.2 j hj
  · intro j hj
    rw [hn] at hj
    by_cases hji : j = i
    · subst hji; exact hi hj
    · have hT := thr j hj
      have hM : MainOk s1.main (s.thread j).pc := by
        rcases hmain with h | h
        · rw [h]; exact ⟨hT.pre, hT.wok, hT.act⟩
        · exact h j hji hj
      refine ⟨?_, ?_, ?_, ?_, ?_, ?_, ?_, ?_, ?_, ?_⟩
      · rw [hthr j hji, hmem]; exact hT.recIdx
      · rw [hthr j hji]; exact hM.1
      · rw [hthr j hji]; exact hT.loc
      · rw [hthr j hji]; exact hT.own
      · rw [hthr j hji]; exact hM.2.1
      · rw [hthr j hji]; exact hM.2.2
      · rw [hthr j hji]
        intro hc
        rcases hcur with h | h
        · have := hT.cur hc
          simpa [Sys.curIdx, hmem, h] using this
        · have := (h j hji hj).1
          rw [hc] at this; cases this
      · rw [hthr j hji]
        intro hr
        rcases hfree with h | h | h
        · exact h
        · rw [h]; exact hT.free hr
        · exact absurd hr (h j hji hj)
      · rw [hthr j hji]
        intro pn po hs
        rcases hcur with h | h
        · rw [hmem, h]; exact hT.sig pn po hs
        · exact absurd hs ((h j hji hj).2 pn po)
      · rw [hthr j hji, hmem]; exact hT.wai

theorem Inv.wake (s : Sys) (hI : Inv s) (hm : s.main = .signalled ∨ s.main = .spin) :
    Inv { s with thread := condSignal s.curIdx s.thread } := by
  have hother : ∀ j, j ≠ s.curIdx → condSignal s.curIdx s.thread j = s.thread j := by
    intro j hj
    simp only [condSignal]
    split
    · next hp =>
      exfalso
      by_cases hjn : j < s.nThreads
      · exact hj ((hI.thr j hjn).own _ hp).symm
      · have := hI.dormant j (by omega)
        rw [this] at hp; cases hp
    · rfl
  apply Inv.transfer s.curIdx hI
  case hn => rfl
  case hmem => rfl
  case hcr => rfl
  case hthr => exact hother
  case hdorm =>
    intro hle
    simp only [condSignal]
    rw [hI.dormant _ hle]
    simp
  case hpt => simp only [condSignal]; split <;> rfl
  case hhook => exact ⟨rfl, fun p hp => hp⟩
  case hcnt =>
    by_cases hp : (s.thread s.curIdx).pc = .parked s.curIdx
    · simp [condSignal, hp, TPc.hasCounted]
    · simp [condSignal, hp]
  case hmutM => exact hI.mutM
  case hmutI =>
    have := hI.mutT s.curIdx
    simp only [condSignal]
    split
    · next hp => rw [hp] at this; simpa [TPc.holds] using this
    · exact this
  case hmutJ => exact fun j _ => Iff.rfl
  case heq => exact hI.eqStarted
  case hdisp => exact hI.dispCur
  case hmain => exact Or.inl rfl
  case hcur => exact Or.inl rfl
  case hfree => exact Or.inr (Or.inl rfl)
  case hi =>
    intro hlt
    have hT := hI.thr _ hlt
    by_cases hp : (s.thread s.curIdx).pc = .parked s.curIdx
    · have e : condSignal s.curIdx s.thread s.curIdx =
          { s.thread s.curIdx with pc := .woken } := by
        simp [condSignal, hp]
      refine ⟨?_, ?_, ?_, ?_, ?_, ?_, ?_, ?_, ?_, ?_⟩ <;> simp only [e]
      · exact hT.recIdx
      · intro h; cases h
      · intro h; cases h
      · intro c h; cases h
      · intro _; exact hm
      · intro h; cases h
      · intro _; rfl
      · intro h; cases h
      · intro pn po h; cases h
      · intro po h; cases h
    · have e : condSignal s.curIdx s.thread s.curIdx = s.thread s.curIdx := by
        simp [condSignal, hp]
      refine ⟨?_, ?_, ?_, ?_, ?_, ?_, ?_, ?_, ?_, ?_⟩ <;> simp only [e]
      · exact hT.recIdx
      · exact hT.pre
      · exact hT.loc
      · exact hT.own
      · exact hT.wok
      · exact hT.act
      · exact hT.cur
      · exact hT.free
      · exact hT.sig
      · exact hT.wai

theorem MPc.inHook_of_barrierDone (m : MPc) (h : m.barrierDone = true) : m.inHook = false := by
  cases m <;> first | rfl | cases h

theorem Inv.all_counted {s : Sys} (hI : Inv s) (hbd : s.main.barrierDone = true) :
    ∀ j, j < s.nThreads → (s.thread j).pc.hasCounted = true := by
  have h1 := hI.len
  rw [MPc.inHook_of_barrierDone _ hbd] at h1
  have h2 := hI.eqStarted hbd
  have h3 := hI.cnt
  exact countPc_eq_all _ _ _ (by simp at h1; omega)

theorem inv_taskStep (s s1 : Sys) (i h : Nat) (hI : Inv s)
    (hs : taskStep s i h = some s1) : Inv s1 := by
  unfold taskStep at hs
  split at hs
  case isFalse => cases hs
  case isTrue hi =>
    have hT := hI.thr i hi
    have hmutI := hI.mutT i
    have hmutM := hI.mutM
    have hupd : ∀ (t : Thread) (j : Nat), j ≠ i → Function.update s.thread i t j = s.thread j :=
      fun t j hj => Function.update_noteq hj _ _
    obtain ⟨b1, b2, b3, b4, b5, b6, b7, b8, b9, b10⟩ := hT
    split at hs
    case h_1 hpc =>
      -- spawned: line 446
      injection hs with hs
      subst hs
      have hpb : s.main.pastBarrier = false := b2 (by rw [hpc]; rfl)
      apply Inv.transfer i hI
      case hn => rfl
      case hmem => rfl
      case hcr => rfl
      case hthr => exact hupd _
      case hdorm => intro hle; omega
      case hpt => simp
      case hhook => exact ⟨rfl, fun p hp => hp⟩
      case hcnt => simp [Sys.setPc, hpc, TPc.hasCounted]
      case hmutM => exact hmutM
      case hmutI => simpa [Sys.setPc, hpc, TPc.holds] using hmutI
      case hmutJ => exact fun j _ => Iff.rfl
      case heq => exact hI.eqStarted
      case hdisp => exact hI.dispCur
      case hmain => exact Or.inl rfl
      case hcur => exact Or.inl rfl
      case hfree => exact Or.inr (Or.inl rfl)
      case hi =>
        intro _
        refine ⟨?_, ?_, ?_, ?_, ?_, ?_, ?_, ?_, ?_, ?_⟩ <;>
          simp only [Sys.setPc, Function.update_same]
        · exact b1
        · exact fun _ => hpb
        · exact fun _ => b1
        · intro c h; cases h
        · intro h; cases h
        · intro h; cases h
        · intro h; cases h
        · intro h; cases h
        · intro pn po h; cases h
        · intro po h; cases h
    case h_2 hpc =>
      -- entry: pthread_mutex_lock of line 449
      split at hs
      case isFalse => cases hs
      case isTrue hm =>
      injection hs with hs
      subst hs
      have hpb : s.main.pastBarrier = false := b2 (by rw [hpc]; rfl)
      have hidx : (s.thread i).nThreadIdx = i := b3 (by rw [hpc]; rfl)
      apply Inv.transfer i hI
      case hn => rfl
      case hmem => rfl
      case hcr => rfl
      case hthr => exact hupd _
      case hdorm => intro hle; omega
      case hpt => simp [Sys.setPc]
      case hhook => exact ⟨rfl, fun p hp => hp⟩
      case hcnt => simp [Sys.setPc, hpc, TPc.hasCounted]
      case hmutM =>
        rw [hm] at hmutM
        simpa [Sys.setPc] using hmutM
      case hmutI => simp [Sys.setPc, TPc.holds]
      case hmutJ =>
        intro j hj
        simp [hm, Ne.symm hj]
      case heq => exact hI.eqStarted
      case hdisp => exact hI.dispCur
      case hmain => exact Or.inl rfl
      case hcur => exact Or.inl rfl
      case hfree =>
        refine Or.inr (Or.inr ?_)
        intro j _ hj hr
        have h1 := (hI.thr j hj).act (by rw [hr]; rfl)
        rw [h1] at hpb
        cases hpb
      case hi =>
        intro _
        refine ⟨?_, ?_, ?_, ?_, ?_, ?_, ?_, ?_, ?_, ?_⟩ <;>
          simp only [Sys.setPc, Function.update_same]
        · exact b1
        · exact fun _ => hpb
        · exact fun _ => hidx
        · intro c h; cases h
        · intro h; cases h
        · intro h; cases h
        · intro h; cases h
        · intro h; cases h
        · intro pn po h; cases h
        · intro po h; cases h
    case h_3 hpc =>
      -- locked: nNumThreadsStarted++ of line 452
      injection hs with hs
      subst hs
      have hpb : s.main.pastBarrier = false := b2 (by rw [hpc]; rfl)
      have hidx : (s.thread i).nThreadIdx = i := b3 (by rw [hpc]; rfl)
      apply Inv.transfer i hI
      case hn => rfl
      case hmem => rfl
      case hcr => rfl
      case hthr => exact hupd _
      case hdorm => intro hle; omega
      case hpt => simp [Sys.setPc]
      case hhook => exact ⟨rfl, fun p hp => hp⟩
      case hcnt => simp [Sys.setPc, hpc, TPc.hasCounted]
      case hmutM => exact hmutM
      case hmutI => simpa [Sys.setPc, hpc, TPc.holds] using hmutI
      case hmutJ => exact fun j _ => Iff.rfl
      case heq =>
        intro hbd
        have := Inv.all_counted hI hbd i hi
        rw [hpc] at this
        cases this
      case hdisp => exact hI.dispCur
      case hmain => exact Or.inl rfl
      case hcur => exact Or.inl rfl
      case hfree => exact Or.inr (Or.inl rfl)
      case hi =>
        intro _
        refine ⟨?_, ?_, ?_, ?_, ?_, ?_, ?_, ?_, ?_, ?_⟩ <;>
          simp only [Sys.setPc, Function.update_same]
        · exact b1
        · exact fun _ => hpb
        · exact fun _ => hidx
        · intro c h; cases h
        · intro h; cases h
        · intro h; cases h
        · intro h; cases h
        · intro h; cases h
        · intro pn po h; cases h
        · intro po h; cases h
    case h_4 hpc =>
      -- counted: test and signal of lines 455-456
      split at hs
      case isTrue hce =>
        injection hs with hs
        subst hs
        have hpb : s.main.pastBarrier = false := b2 (by rw [hpc]; rfl)
        have hidx : (s.thread i).nThreadIdx = i := b3 (by rw [hpc]; rfl)
        apply Inv.transfer i hI
        case hn => rfl
        case hmem => rfl
        case hcr => rfl
        case hthr => exact hupd _
        case hdorm => intro hle; omega
        case hpt => simp [Sys.setPc]
        case hhook =>
          by_cases hb : s.main = .barrier
          · simp [Sys.setPc, hb, MPc.inHook]
          · simp [Sys.setPc, hb]
        case hcnt => simp [Sys.setPc, hpc, TPc.hasCounted]
        case hmutM =>
          by_cases hb : s.main = .barrier
          · rw [hb] at hmutM
            simpa [Sys.setPc, hb, MPc.holds] using hmutM
          · simpa [Sys.setPc, hb] using hmutM
        case hmutI => simpa [Sys.setPc, hpc, TPc.holds] using hmutI
        case hmutJ => exact fun j _ => Iff.rfl
        case heq => exact fun _ => hce.symm
        case hdisp =>
          intro p hp
          by_cases hb : s.main = .barrier
          · simp [Sys.setPc, hb] at hp
          · exact hI.dispCur p (by simpa [Sys.setPc, hb] using hp)
        case hmain =>
          by_cases hb : s.main = .barrier
          · refine Or.inr (fun j _ hj => ?_)
            have hTj := hI.thr j hj
            refine ⟨fun _ => by simp [Sys.setPc, hb, MPc.pastBarrier], fun hw => ?_, fun ha => ?_⟩
            · have := hTj.wok hw
              rw [hb] at this
              rcases this with h | h <;> cases h
            · have := hTj.act ha
              rw [hb] at this
              cases this
          · exact Or.inl (by simp [Sys.setPc, hb])
        case hcur => exact Or.inl rfl
        case hfree => exact Or.inr (Or.inl rfl)
        case hi =>
          intro _
          refine ⟨?_, ?_, ?_, ?_, ?_, ?_, ?_, ?_, ?_, ?_⟩ <;>
            simp only [Sys.setPc, Function.update_same]
          · exact b1
          · intro _
            by_cases hb : s.main = .barrier
            · simp [hb, MPc.pastBarrier]
            · simpa [hb] using hpb
          · exact fun _ => hidx
          · intro c h; cases h
          · intro h; cases h
          · intro h; cases h
          · intro h; cases h
          · intro h; cases h
          · intro pn po h; cases h
          · intro po h; cases h
      case isFalse hce =>
        injection hs with hs
        subst hs
        have hpb : s.main.pastBarrier = false := b2 (by rw [hpc]; rfl)
        have hidx : (s.thread i).nThreadIdx = i := b3 (by rw [hpc]; rfl)
        apply Inv.transfer i hI
        case hn => rfl
        case hmem => rfl
        case hcr => rfl
        case hthr => exact hupd _
        case hdorm => intro hle; omega
        case hpt => simp [Sys.setPc]
        case hhook => exact ⟨rfl, fun p hp => hp⟩
        case hcnt => simp [Sys.setPc, hpc, TPc.hasCounted]
        case hmutM => exact hmutM
        case hmutI => simpa [Sys.setPc, hpc, TPc.holds] using hmutI
        case hmutJ => exact fun j _ => Iff.rfl
        case heq => exact hI.eqStarted
        case hdisp => exact hI.dispCur
        case hmain => exact Or.inl rfl
        case hcur => exact Or.inl rfl
        case hfree => exact Or.inr (Or.inl rfl)
        case hi =>
          intro _
          refine ⟨?_, ?_, ?_, ?_, ?_, ?_, ?_, ?_, ?_, ?_⟩ <;>
            simp only [Sys.setPc, Function.update_same]
          · exact b1
          · exact fun _ => hpb
          · exact fun _ => hidx
          · intro c h; cases h
          · intro h; cases h
          · intro h; cases h
          · intro h; cases h
          · intro h; cases h
          · intro pn po h; cases h
          · intro po h; cases h
    case h_5 hpc =>
      -- ready: pthread_cond_wait of line 459 releases the mutex
      injection hs with hs
      subst hs
      have hpb : s.main.pastBarrier = false := b2 (by rw [hpc]; rfl)
      have hidx : (s.thread i).nThreadIdx = i := b3 (by rw [hpc]; rfl)
      have hown : s.mutThread = some (.task i) := hmutI.1 (by rw [hpc]; rfl)
      apply Inv.transfer i hI
      case hn => rfl
      case hmem => rfl
      case hcr => rfl
      case hthr => exact hupd _
      case hdorm => intro hle; omega
      case hpt => simp [Sys.setPc]
      case hhook => exact ⟨rfl, fun p hp => hp⟩
      case hcnt => simp [Sys.setPc, hpc, TPc.hasCounted]
      case hmutM =>
        rw [hown] at hmutM
        simpa [Sys.setPc] using hmutM
      case hmutI => simp [Sys.setPc, TPc.holds]
      case hmutJ =>
        intro j hj
        simp [hown, Ne.symm hj]
      case heq => exact hI.eqStarted
      case hdisp => exact hI.dispCur
      case hmain => exact Or.inl rfl
      case hcur => exact Or.inl rfl
      case hfree => exact Or.inl rfl
      case hi =>
        intro _
        refine ⟨?_, ?_, ?_, ?_, ?_, ?_, ?_, ?_, ?_, ?_⟩ <;>
          simp only [Sys.setPc, Function.update_same]
        · exact b1
        · intro h; cases h
        · intro h; cases h
        · intro c h; injection h with h; omega
        · intro h; cases h
        · intro h; cases h
        · intro h; cases h
        · intro h; cases h
        · intro pn po h; cases h
        · intro po h; cases h
    case h_6 hpc =>
      -- parked: blocked
      cases hs
    case h_7 hpc =>
      -- woken: pthread_cond_wait takes the mutex again
      split at hs
      case isFalse => cases hs
      case isTrue hm =>
      injection hs with hs
      subst hs
      have hcurI : s.curIdx = i := b7 (by rw [hpc]; rfl)
      have hms : s.main = .spin := by
        rcases b5 hpc with h | h
        · rw [h, hm] at hmutM
          simp [MPc.holds] at hmutM
        · exact h
      apply Inv.transfer i hI
      case hn => rfl
      case hmem => rfl
      case hcr => rfl
      case hthr => exact hupd _
      case hdorm => intro hle; omega
      case hpt => simp [Sys.setPc]
      case hhook => exact ⟨rfl, fun p hp => hp⟩
      case hcnt => simp [Sys.setPc, hpc, TPc.hasCounted]
      case hmutM =>
        rw [hm] at hmutM
        simpa [Sys.setPc] using hmutM
      case hmutI => simp [Sys.setPc, TPc.holds]
      case hmutJ =>
        intro j hj
        simp [hm, Ne.symm hj]
      case heq => exact hI.eqStarted
      case hdisp => exact hI.dispCur
      case hmain => exact Or.inl rfl
      case hcur => exact Or.inl rfl
      case hfree =>
        refine Or.inr (Or.inr ?_)
        intro j _ hj hr
        have h1 := (hI.thr j hj).cur (by rw [hr]; rfl)
        omega
      case hi =>
        intro _
        refine ⟨?_, ?_, ?_, ?_, ?_, ?_, ?_, ?_, ?_, ?_⟩ <;>
          simp only [Sys.setPc, Function.update_same]
        · exact b1
        · intro h; cases h
        · intro h; cases h
        · intro c h; cases h
        · intro h; cases h
        · exact fun _ => hms
        · exact fun _ => hcurI
        · intro h; cases h
        · intro pn po h; cases h
        · intro po h; cases h
    case h_8 hpc =>
      -- resumed: pthread_mutex_unlock of line 460 or 367
      injection hs with hs
      subst hs
      have hms : s.main = .spin := b6 (by rw [hpc]; rfl)
      have hcurI : s.curIdx = i := b7 (by rw [hpc]; rfl)
      have hown : s.mutThread = some (.task i) := hmutI.1 (by rw [hpc]; rfl)
      apply Inv.transfer i hI
      case hn => rfl
      case hmem => rfl
      case hcr => rfl
      case hthr => exact hupd _
      case hdorm => intro hle; omega
      case hpt => simp [Sys.setPc]
      case hhook => exact ⟨rfl, fun p hp => hp⟩
      case hcnt => simp [Sys.setPc, hpc, TPc.hasCounted]
      case hmutM =>
        rw [hown] at hmutM
        simpa [Sys.setPc] using hmutM
      case hmutI => simp [Sys.setPc, TPc.holds]
      case hmutJ =>
        intro j hj
        simp [hown, Ne.symm hj]
      case heq => exact hI.eqStarted
      case hdisp => exact hI.dispCur
      case hmain => exact Or.inl rfl
      case hcur => exact Or.inl rfl
      case hfree => exact Or.inl rfl
      case hi =>
        intro _
        refine ⟨?_, ?_, ?_, ?_, ?_, ?_, ?_, ?_, ?_, ?_⟩ <;>
          simp only [Sys.setPc, Function.update_same]
        · exact b1
        · intro h; cases h
        · intro h; cases h
        · intro c h; cases h
        · intro h; cases h
        · exact fun _ => hms
        · exact fun _ => hcurI
        · trivial
        · intro pn po h; cases h
        · intro po h; cases h
    case h_9 hpc =>
      -- running: OSIntCtxSw is called, pthread_mutex_lock of line 350
      split at hs
      case isFalse => cases hs
      case isTrue hm =>
      injection hs with hs
      subst hs
      have hms : s.main = .spin := b6 (by rw [hpc]; rfl)
      have hcurI : s.curIdx = i := b7 (by rw [hpc]; rfl)
      apply Inv.transfer i hI
      case hn => rfl
      case hmem => rfl
      case hcr => rfl
      case hthr => exact hupd _
      case hdorm => intro hle; omega
      case hpt => simp [Sys.setPc]
      case hhook => exact ⟨rfl, fun p hp => hp⟩
      case hcnt => simp [Sys.setPc, hpc, TPc.hasCounted]
      case hmutM =>
        rw [hm] at hmutM
        simpa [Sys.setPc] using hmutM
      case hmutI => simp [Sys.setPc, TPc.holds]
      case hmutJ =>
        intro j hj
        simp [hm, Ne.symm hj]
      case heq => exact hI.eqStarted
      case hdisp => exact hI.dispCur
      case hmain => exact Or.inl rfl
      case hcur => exact Or.inl rfl
      case hfree =>
        refine Or.inr (Or.inr ?_)
        intro j _ hj hr
        have h1 := (hI.thr j hj).cur (by rw [hr]; rfl)
        omega
      case hi =>
        intro _
        refine ⟨?_, ?_, ?_, ?_, ?_, ?_, ?_, ?_, ?_, ?_⟩ <;>
          simp only [Sys.setPc, Function.update_same]
        · exact b1
        · intro h; cases h
        · intro h; cases h
        · intro c h; cases h
        · intro h; cases h
        · exact fun _ => hms
        · exact fun _ => hcurI
        · intro h; cases h
        · intro pn po h; cases h
        · intro po h; cases h
    case h_10 hpc =>
      -- swLocked: lines 353-358
      injection hs with hs
      subst hs
      have hms : s.main = .spin := b6 (by rw [hpc]; rfl)
      have hcurI : s.curIdx = i := b7 (by rw [hpc]; rfl)
      have hown : s.mutThread = some (.task i) := hmutI.1 (by rw [hpc]; rfl)
      apply Inv.transfer i hI
      case hn => rfl
      case hmem => rfl
      case hcr => rfl
      case hthr => exact hupd _
      case hdorm => intro hle; omega
      case hpt => simp [Sys.setPc]
      case hhook => exact ⟨rfl, fun p hp => hp⟩
      case hcnt => simp [Sys.setPc, hpc, TPc.hasCounted]
      case hmutM => exact hmutM
      case hmutI => simpa [Sys.setPc, hpc, TPc.holds] using hmutI
      case hmutJ => exact fun j _ => Iff.rfl
      case heq => exact hI.eqStarted
      case hdisp =>
        intro p hp
        simp only [Sys.setPc] at hp
        rw [hms] at hp
        cases hp
      case hmain => exact Or.inl rfl
      case hcur =>
        refine Or.inr (fun j hj hjn => ⟨?_, fun pn po hp => ?_⟩)
        · cases hc : (s.thread j).pc.atCur
          · rfl
          · have := (hI.thr j hjn).cur hc
            omega
        · have := (hI.mutT j).1 (by rw [hp]; rfl)
          rw [hown] at this
          injection this with this
          injection this with this
          exact hj this.symm
      case hfree => exact Or.inr (Or.inl rfl)
      case hi =>
        intro _
        refine ⟨?_, ?_, ?_, ?_, ?_, ?_, ?_, ?_, ?_, ?_⟩ <;>
          simp only [Sys.setPc, Function.update_same]
        · exact b1
        · intro h; cases h
        · intro h; cases h
        · intro c h; cases h
        · intro h; cases h
        · exact fun _ => hms
        · intro h; cases h
        · intro h; cases h
        · intro pn po e; injection e with e1 e2; subst e1 e2; exact ⟨rfl, hcurI⟩
        · intro po h; cases h
    case h_11 pNew pOld hpc =>
      -- swSignal: pthread_cond_signal of line 361
      injection hs with hs
      subst hs
      have hms : s.main = .spin := b6 (by rw [hpc]; rfl)
      have hown : s.mutThread = some (.task i) := hmutI.1 (by rw [hpc]; rfl)
      have hpn : pNew = s.OSTCBCur := (b9 pNew pOld hpc).1
      have hpo : (s.port.mem pOld).nThreadIdx = i := (b9 pNew pOld hpc).2
      subst hpn
      have hmid : condSignal s.curIdx s.thread i = s.thread i := by
        simp [condSignal, hpc]
      have hW := Inv.wake s hI (Or.inr hms)
      apply Inv.transfer i hW
      case hn => rfl
      case hmem => rfl
      case hcr => rfl
      case hthr => exact fun j hj => Function.update_noteq hj _ _
      case hdorm => intro hle; exact absurd hi (Nat.not_lt.mpr hle)
      case hpt => simp [hmid]
      case hhook => exact ⟨rfl, fun p hp => hp⟩
      case hcnt => simp [hmid, hpc, TPc.hasCounted]
      case hmutM => exact hmutM
      case hmutI => simpa [hpc, TPc.holds] using hmutI
      case hmutJ => exact fun j _ => Iff.rfl
      case heq => exact hI.eqStarted
      case hdisp => exact hI.dispCur
      case hmain => exact Or.inl rfl
      case hcur => exact Or.inl rfl
      case hfree => exact Or.inr (Or.inl rfl)
      case hi =>
        intro _
        refine ⟨?_, ?_, ?_, ?_, ?_, ?_, ?_, ?_, ?_, ?_⟩ <;>
          simp only [Sys.setPc, Function.update_same]
        · exact b1
        · intro h; cases h
        · intro h; cases h
        · intro c h; cases h
        · intro h; cases h
        · exact fun _ => hms
        · intro h; cases h
        · intro h; cases h
        · intro pn po h; cases h
        · intro po e; injection e with e; subst e; exact hpo
    case h_12 pOld hpc =>
      -- swWait: pthread_cond_wait of line 364 releases the mutex
      injection hs with hs
      subst hs
      have hown : s.mutThread = some (.task i) := hmutI.1 (by rw [hpc]; rfl)
      have hpo : (s.port.mem pOld).nThreadIdx = i := b10 pOld hpc
      apply Inv.transfer i hI
      case hn => rfl
      case hmem => rfl
      case hcr => rfl
      case hthr => exact hupd _
      case hdorm => intro hle; omega
      case hpt => simp [Sys.setPc]
      case hhook => exact ⟨rfl, fun p hp => hp⟩
      case hcnt => simp [Sys.setPc, hpc, TPc.hasCounted]
      case hmutM =>
        rw [hown] at hmutM
        simpa [Sys.setPc] using hmutM
      case hmutI => simp [Sys.setPc, TPc.holds]
      case hmutJ =>
        intro j hj
        simp [hown, Ne.symm hj]
      case heq => exact hI.eqStarted
      case hdisp => exact hI.dispCur
      case hmain => exact Or.inl rfl
      case hcur => exact Or.inl rfl
      case hfree => exact Or.inl rfl
      case hi =>
        intro _
        refine ⟨?_, ?_, ?_, ?_, ?_, ?_, ?_, ?_, ?_, ?_⟩ <;>
          simp only [Sys.setPc, Function.update_same]
        · exact b1
        · intro h; cases h
        · intro h; cases h
        · intro c h; injection h with h; omega
        · intro h; cases h
        · intro h; cases h
        · intro h; cases h
        · intro h; cases h
        · intro pn po h; cases h
        · intro po h; cases h

theorem TPc.atCur_cases (pc : TPc) (h : pc.atCur = true) : pc = .woken ∨ pc.active = true := by
  cases pc <;> first | exact Or.inl rfl | exact Or.inr rfl | cases h

/-- While the main thread has not yet signalled a slot condition, every task
thread is in the preamble of `ThreadWrapper` or parked on its own condition. -/
theorem ThreadOk.early {s : Sys} {j : Nat} (hT : ThreadOk s j)
    (h1 : s.main ≠ .signalled) (h2 : s.main ≠ .spin) :
    (s.thread j).pc ≠ .woken ∧ (s.thread j).pc.active = false ∧
      (s.thread j).pc.atCur = false := by
  have hw : (s.thread j).pc ≠ .woken := by
    intro hw
    rcases hT.wok hw with h | h
    · exact h1 h
    · exact h2 h
  have ha : (s.thread j).pc.active = false := by
    cases hc : (s.thread j).pc.active
    · rfl
    · exact absurd (hT.act hc) h2
  refine ⟨hw, ha, ?_⟩
  cases hc : (s.thread j).pc.atCur
  · rfl
  · rcases TPc.atCur_cases _ hc with h | h
    · exact absurd h hw
    · rw [ha] at h; cases h

theorem MainOk.of_early {s : Sys} {j : Nat} (hT : ThreadOk s j) (m : MPc)
    (h1 : s.main ≠ .signalled) (h2 : s.main ≠ .spin)
    (hp : (s.thread j).pc.preamble = true → m.pastBarrier = false) :
    MainOk m (s.thread j).pc := by
  obtain ⟨hw, ha, _⟩ := hT.early h1 h2
  exact ⟨hp, fun h => absurd h hw, fun h => by rw [ha] at h; cases h⟩

theorem ThreadOk.reg {s s1 : Sys} {j : Nat} (hT : ThreadOk s j)
    (hthr : s1.thread j = s.thread j)
    (hrec : s1.port.mem (s.thread j).pTaskInfo = s.port.mem (s.thread j).pTaskInfo)
    (h1 : s.main ≠ .signalled) (h2 : s.main ≠ .spin)
    (hnew : s1.main.pastBarrier = false) : ThreadOk s1 j := by
  obtain ⟨hw, ha, hc⟩ := hT.early h1 h2
  refine ⟨?_, ?_, ?_, ?_, ?_, ?_, ?_, ?_, ?_, ?_⟩ <;> rw [hthr]
  · rw [hrec]; exact hT.recIdx
  · exact fun _ => hnew
  · exact hT.loc
  · exact hT.own
  · exact fun h => absurd h hw
  · intro h; rw [ha] at h; cases h
  · intro h; rw [hc] at h; cases h
  · intro h; rw [h] at ha; cases ha
  · intro pn po h; rw [h] at ha; cases ha
  · intro po h; rw [h] at ha; cases ha

theorem inv_init (mem : Mem) : Inv (Sys.init mem) := by
  refine ⟨rfl, rfl, ?_, ?_, fun _ _ => rfl, ?_, ?_, ?_, ?_⟩
  · simp [Sys.init, MPc.holds]
  · intro i; simp [Sys.init, TPc.holds]
  · intro p hp; cases hp
  · intro h; cases h
  · intro p hp; cases hp
  · intro i hi; cases hi

theorem inv_register (s s1 : Sys) (p : Nat) (hI : Inv s)
    (hs : step s (.register p) = some s1) : Inv s1 := by
  simp only [step] at hs
  split at hs
  case isFalse => cases hs
  case isTrue hc =>
    injection hs with hs
    subst hs
    obtain ⟨hmi, hfr⟩ := hc
    have hfresh : ∀ j, j < s.nThreads → (s.thread j).pTaskInfo ≠ p := by
      intro j hj
      have := (List.all_eq_true.1 hfr) j (List.mem_range.2 hj)
      simpa using this
    have hlen := hI.len
    have hmutM := hI.mutM
    rw [hmi] at hlen hmutM
    refine ⟨?_, hI.cnt, ?_, hI.mutT, hI.dormant, ?_, ?_, ?_, ?_⟩
    · simp [OSTCBInitHook_assign, MPc.inHook] at hlen ⊢
      omega
    · simpa [MPc.holds] using hmutM
    · intro q hq
      injection hq with hq
      subst hq
      refine ⟨?_, hfresh⟩
      simp [OSTCBInitHook_assign, MPc.inHook] at hlen ⊢
      omega
    · intro h; cases h
    · intro q hq; cases hq
    · intro j hj
      refine (hI.thr j hj).reg rfl ?_ (by rw [hmi]; simp) (by rw [hmi]; simp) rfl
      simp [OSTCBInitHook_assign, Function.update, hfresh j hj]

theorem inv_osStart (s s1 : Sys) (p : Nat) (hI : Inv s)
    (hs : step s (.osStart p) = some s1) : Inv s1 := by
  simp only [step] at hs
  split at hs
  case isFalse => cases hs
  case isTrue hmi =>
    injection hs with hs
    subst hs
    have hlen := hI.len
    have hmutM := hI.mutM
    rw [hmi] at hlen hmutM
    refine ⟨?_, hI.cnt, ?_, hI.mutT, hI.dormant, ?_, ?_, ?_, ?_⟩
    · simpa [MPc.inHook] using hlen
    · simpa [MPc.holds] using hmutM
    · intro q hq; cases hq
    · intro h; cases h
    · intro q hq; cases hq
    · intro j hj
      exact (hI.thr j hj).reg rfl rfl (by rw [hmi]; simp) (by rw [hmi]; simp) rfl

theorem TPc.preamble_of (pc : TPc) (h1 : pc.hasCounted = true) (h2 : pc.holds = false) :
    pc.preamble = false := by
  cases pc <;> simp_all [TPc.hasCounted, TPc.holds, TPc.preamble]

theorem Inv.all_counted_of {s : Sys} (hI : Inv s) (hin : s.main.inHook = false)
    (heq : s.port.nNumThreadsStarted = s.port.nNumThreadsCreated) :
    ∀ j, j < s.nThreads → (s.thread j).pc.hasCounted = true := by
  have h1 := hI.len
  rw [hin] at h1
  have h3 := hI.cnt
  exact countPc_eq_all _ _ _ (by simp at h1; omega)

theorem ThreadOk.early_main {s : Sys} {j : Nat} (hT : ThreadOk s j) (m : MPc)
    (h1 : s.main ≠ .signalled) (h2 : s.main ≠ .spin)
    (hp : (s.thread j).pc.preamble = true → m.pastBarrier = false) :
    MainOk m (s.thread j).pc :=
  MainOk.of_early hT m h1 h2 hp

theorem inv_mainStep (s s1 : Sys) (hI : Inv s) (hs : mainStep s = some s1) : Inv s1 := by
  unfold mainStep at hs
  have hd := hI.dormant s.nThreads le_rfl
  split at hs
  case h_1 hmn =>
    cases hs
  case h_2 p hmn =>
    -- hook: lines 493-494, the thread is created
    injection hs with hs
    subst hs
    have hlen := hI.len
    have hmutM := hI.mutM
    have hd := hI.dormant s.nThreads le_rfl
    obtain ⟨hrec, hfresh⟩ := hI.hookRec p hmn
    rw [hmn] at hlen hmutM
    have hupd : ∀ (t : Thread) (j : Nat), j ≠ s.nThreads →
        Function.update s.thread s.nThreads t j = s.thread j :=
      fun t j hj => Function.update_noteq hj _ _
    refine ⟨?_, ?_, ?_, ?_, ?_, ?_, ?_, ?_, ?_⟩
    · simpa [OSTCBInitHook_spawn, MPc.inHook] using hlen
    · simp only [countPc, Function.update_same, OSTCBInitHook_spawn]
      rw [hI.cnt]
      simp only [TPc.hasCounted]
      simp only [Bool.false_eq_true, if_false, Nat.add_zero]
      exact countPc_congr _ _ _ _ (fun j hj => by rw [hupd _ j (by omega)])
    · simpa [MPc.holds] using hmutM
    · intro j
      by_cases hj : j = s.nThreads
      · subst hj
        have := hI.mutT s.nThreads
        rw [hd] at this
        simpa [TPc.holds] using this
      · simp only [hupd _ j hj]
        exact hI.mutT j
    · intro j hj
      have hj1 : s.nThreads + 1 ≤ j := hj
      simp only [hupd _ j (by omega)]
      exact hI.dormant j (by omega)
    · intro q hq; cases hq
    · intro h; cases h
    · intro q hq; cases hq
    · intro j hj
      have hj1 : j < s.nThreads + 1 := hj
      by_cases hjn : j = s.nThreads
      · subst hjn
        refine ⟨?_, ?_, ?_, ?_, ?_, ?_, ?_, ?_, ?_, ?_⟩ <;>
          simp only [Function.update_same, OSTCBInitHook_spawn]
        · exact hrec
        · exact fun _ => rfl
        · intro h; cases h
        · intro c h; cases h
        · intro h; cases h
        · intro h; cases h
        · intro h; cases h
        · intro h; cases h
        · intro pn po h; cases h
        · intro po h; cases h
      · exact (hI.thr j (by omega)).reg (hupd _ j hjn) rfl (by rw [hmn]; simp)
          (by rw [hmn]; simp) rfl
  case h_3 hmn =>
    -- start: pthread_mutex_lock of line 317
    split at hs
    case isFalse => cases hs
    case isTrue hm =>
    injection hs with hs
    subst hs
    apply Inv.transfer s.nThreads hI
    case hn => rfl
    case hmem => rfl
    case hcr => rfl
    case hthr => exact fun _ _ => rfl
    case hdorm => exact fun _ => rfl
    case hpt => rfl
    case hhook => exact ⟨by rw [hmn]; rfl, fun p hp => by cases hp⟩
    case hcnt => rfl
    case hmutM => simp [MPc.holds]
    case hmutI => rw [hd]; simp [TPc.holds]
    case hmutJ =>
      intro j _
      simp [hm]
    case heq => intro h; cases h
    case hdisp => intro p hp; cases hp
    case hi => intro hlt; exact absurd hlt (Nat.lt_irrefl _)
    case hmain => exact Or.inr (fun j _ hj => (hI.thr j hj).early_main _ (by rw [hmn]; simp) (by rw [hmn]; simp) (fun _ => rfl))
    case hcur => exact Or.inl rfl
    case hfree =>
      exact Or.inr (Or.inr (fun j _ hj hr => by
        have := ((hI.thr j hj).early (by rw [hmn]; simp) (by rw [hmn]; simp)).2.1
        rw [hr] at this; cases this))
  case h_4 hmn =>
    -- check: the test of line 318
    split at hs
    case isTrue hne =>
      injection hs with hs
      subst hs
      have hown : s.mutThread = some .main := hI.mutM.1 (by rw [hmn]; rfl)
      apply Inv.transfer s.nThreads hI
      case hn => rfl
      case hmem => rfl
      case hcr => rfl
      case hthr => exact fun _ _ => rfl
      case hdorm => exact fun _ => rfl
      case hpt => rfl
      case hhook => exact ⟨by rw [hmn]; rfl, fun p hp => by cases hp⟩
      case hcnt => rfl
      case hmutM => simp [MPc.holds]
      case hmutI => rw [hd]; simp [TPc.holds]
      case hmutJ =>
        intro j _
        simp [hown]
      case heq => intro h; cases h
      case hdisp => intro p hp; cases hp
      case hi => intro hlt; exact absurd hlt (Nat.lt_irrefl _)
      case hmain => exact Or.inr (fun j _ hj => (hI.thr j hj).early_main _ (by rw [hmn]; simp) (by rw [hmn]; simp) (fun _ => rfl))
      case hcur => exact Or.inl rfl
      case hfree => exact Or.inl rfl
    case isFalse hne =>
      injection hs with hs
      subst hs
      have hown : s.mutThread = some .main := hI.mutM.1 (by rw [hmn]; rfl)
      have hce : s.port.nNumThreadsStarted = s.port.nNumThreadsCreated := by
        simp only [ne_eq, not_not] at hne
        exact hne.symm
      apply Inv.transfer s.nThreads hI
      case hn => rfl
      case hmem => rfl
      case hcr => rfl
      case hthr => exact fun _ _ => rfl
      case hdorm => exact fun _ => rfl
      case hpt => rfl
      case hhook => exact ⟨by rw [hmn]; rfl, fun p hp => by cases hp⟩
      case hcnt => rfl
      case hmutM => simpa [MPc.holds] using hown
      case hmutI => rw [hd]; simp [TPc.holds, hown]
      case hmutJ => exact fun j _ => Iff.rfl
      case heq => exact fun _ => hce
      case hdisp => intro p hp; cases hp
      case hi => intro hlt; exact absurd hlt (Nat.lt_irrefl _)
      case hmain =>
        exact Or.inr (fun j _ hj => (hI.thr j hj).early_main _ (by rw [hmn]; simp) (by rw [hmn]; simp)
          (fun hp => by
            have hc := Inv.all_counted_of hI (by rw [hmn]; rfl) (hce) j hj
            have hh : (s.thread j).pc.holds = false := by
              cases hx : (s.thread j).pc.holds
              · rfl
              · have := (hI.mutT j).1 hx
                rw [hown] at this; cases this
            exact absurd hp (by rw [TPc.preamble_of _ hc hh]; simp)))
      case hcur => exact Or.inl rfl
      case hfree => exact Or.inr (Or.inl rfl)
  case h_5 hmn =>
    cases hs
  case h_6 hmn =>
    -- barrierWoken: pthread_cond_wait of line 319 takes the mutex again
    split at hs
    case isFalse => cases hs
    case isTrue hm =>
    injection hs with hs
    subst hs
    apply Inv.transfer s.nThreads hI
    case hn => rfl
    case hmem => rfl
    case hcr => rfl
    case hthr => exact fun _ _ => rfl
    case hdorm => exact fun _ => rfl
    case hpt => rfl
    case hhook => exact ⟨by rw [hmn]; rfl, fun p hp => by cases hp⟩
    case hcnt => rfl
    case hmutM => simp [MPc.holds]
    case hmutI => rw [hd]; simp [TPc.holds]
    case hmutJ =>
      intro j _
      simp [hm]
    case heq => exact fun _ => hI.eqStarted (by rw [hmn]; rfl)
    case hdisp => intro p hp; cases hp
    case hi => intro hlt; exact absurd hlt (Nat.lt_irrefl _)
    case hmain =>
      exact Or.inr (fun j _ hj => (hI.thr j hj).early_main _ (by rw [hmn]; simp) (by rw [hmn]; simp)
        (fun hp => by
          have hc := Inv.all_counted_of hI (by rw [hmn]; rfl) (hI.eqStarted (by rw [hmn]; rfl)) j hj
          have hh : (s.thread j).pc.holds = false := by
            cases hx : (s.thread j).pc.holds
            · rfl
            · have := (hI.mutT j).1 hx
              rw [hm] at this; cases this
          exact absurd hp (by rw [TPc.preamble_of _ hc hh]; simp)))
    case hcur => exact Or.inl rfl
    case hfree =>
      exact Or.inr (Or.inr (fun j _ hj hr => by
        have := ((hI.thr j hj).early (by rw [hmn]; simp) (by rw [hmn]; simp)).2.1
        rw [hr] at this; cases this))
  case h_7 hmn =>
    -- passed: pthread_mutex_unlock of line 320
    injection hs with hs
    subst hs
    have hown : s.mutThread = some .main := hI.mutM.1 (by rw [hmn]; rfl)
    apply Inv.transfer s.nThreads hI
    case hn => rfl
    case hmem => rfl
    case hcr => rfl
    case hthr => exact fun _ _ => rfl
    case hdorm => exact fun _ => rfl
    case hpt => rfl
    case hhook => exact ⟨by rw [hmn]; rfl, fun p hp => by cases hp⟩
    case hcnt => rfl
    case hmutM => simp [MPc.holds]
    case hmutI => rw [hd]; simp [TPc.holds]
    case hmutJ =>
      intro j _
      simp [hown]
    case heq => exact fun _ => hI.eqStarted (by rw [hmn]; rfl)
    case hdisp => intro p hp; cases hp
    case hi => intro hlt; exact absurd hlt (Nat.lt_irrefl _)
    case hmain =>
      exact Or.inr (fun j _ hj => (hI.thr j hj).early_main _ (by rw [hmn]; simp) (by rw [hmn]; simp)
        (fun hp => by
          have := (hI.thr j hj).pre hp
          rw [hmn] at this; cases this))
    case hcur => exact Or.inl rfl
    case hfree => exact Or.inl rfl
  case h_8 hmn =>
    -- tick: InitTick, line 326, pthread_mutex_lock of line 329
    split at hs
    case isFalse => cases hs
    case isTrue hm =>
    injection hs with hs
    subst hs
    apply Inv.transfer s.nThreads hI
    case hn => rfl
    case hmem => rfl
    case hcr => rfl
    case hthr => exact fun _ _ => rfl
    case hdorm => exact fun _ => rfl
    case hpt => rfl
    case hhook => exact ⟨by rw [hmn]; rfl, fun p hp => by cases hp⟩
    case hcnt => rfl
    case hmutM => simp [MPc.holds]
    case hmutI => rw [hd]; simp [TPc.holds]
    case hmutJ =>
      intro j _
      simp [hm]
    case heq => exact fun _ => hI.eqStarted (by rw [hmn]; rfl)
    case hdisp => intro p hp; injection hp with hp; exact hp.symm
    case hi => intro hlt; exact absurd hlt (Nat.lt_irrefl _)
    case hmain =>
      exact Or.inr (fun j _ hj => (hI.thr j hj).early_main _ (by rw [hmn]; simp) (by rw [hmn]; simp)
        (fun hp => by
          have := (hI.thr j hj).pre hp
          rw [hmn] at this; cases this))
    case hcur => exact Or.inl rfl
    case hfree =>
      exact Or.inr (Or.inr (fun j _ hj hr => by
        have := ((hI.thr j hj).early (by rw [hmn]; simp) (by rw [hmn]; simp)).2.1
        rw [hr] at this; cases this))
  case h_9 p hmn =>
    -- dispatch: pthread_cond_signal of line 330
    injection hs with hs
    subst hs
    have hp : p = s.OSTCBCur := hI.dispCur p hmn
    subst hp
    have hown : s.mutThread = some .main := hI.mutM.1 (by rw [hmn]; rfl)
    have hmid : Inv { s with
        startSignals := s.startSignals ++ [(s.port.mem s.OSTCBCur).nThreadIdx]
        main := .signalled } := by
      apply Inv.transfer s.nThreads hI
      case hn => rfl
      case hmem => rfl
      case hcr => rfl
      case hthr => exact fun _ _ => rfl
      case hdorm => exact fun _ => rfl
      case hpt => rfl
      case hhook => exact ⟨by rw [hmn]; rfl, fun p hp => by cases hp⟩
      case hcnt => rfl
      case hmutM => simpa [MPc.holds] using hown
      case hmutI => rw [hd]; simp [TPc.holds, hown]
      case hmutJ => exact fun j _ => Iff.rfl
      case heq => exact fun _ => hI.eqStarted (by rw [hmn]; rfl)
      case hdisp => intro p hp; cases hp
      case hi => intro hlt; exact absurd hlt (Nat.lt_irrefl _)
      case hmain =>
        exact Or.inr (fun j _ hj => (hI.thr j hj).early_main _ (by rw [hmn]; simp) (by rw [hmn]; simp)
          (fun hp => by
            have := (hI.thr j hj).pre hp
            rw [hmn] at this; cases this))
      case hcur => exact Or.inl rfl
      case hfree => exact Or.inr (Or.inl rfl)
    exact Inv.wake _ hmid (Or.inl rfl)
  case h_10 hmn =>
    -- signalled: pthread_mutex_unlock of line 331
    injection hs with hs
    subst hs
    have hown : s.mutThread = some .main := hI.mutM.1 (by rw [hmn]; rfl)
    apply Inv.transfer s.nThreads hI
    case hn => rfl
    case hmem => rfl
    case hcr => rfl
    case hthr => exact fun _ _ => rfl
    case hdorm => exact fun _ => rfl
    case hpt => rfl
    case hhook => exact ⟨by rw [hmn]; rfl, fun p hp => by cases hp⟩
    case hcnt => rfl
    case hmutM => simp [MPc.holds]
    case hmutI => rw [hd]; simp [TPc.holds]
    case hmutJ => intro j _; simp [hown]
    case heq => exact fun _ => hI.eqStarted (by rw [hmn]; rfl)
    case hdisp => intro p hp; cases hp
    case hi => intro hlt; exact absurd hlt (Nat.lt_irrefl _)
    case hmain =>
      refine Or.inr (fun j _ hj => ⟨fun hp => ?_, fun _ => Or.inr rfl, fun ha => ?_⟩)
      · have := (hI.thr j hj).pre hp
        rw [hmn] at this; cases this
      · exact absurd ((hI.thr j hj).act ha) (by rw [hmn]; simp)
    case hcur => exact Or.inl rfl
    case hfree => exact Or.inl rfl
  case h_11 hmn =>
    injection hs with hs
    subst hs
    exact hI

theorem inv_step (s s1 : Sys) (a : Act) (hI : Inv s) (hs : step s a = some s1) : Inv s1 := by
  cases a with
  | register p => exact inv_register s s1 p hI hs
  | osStart p => exact inv_osStart s s1 p hI hs
  | main => exact inv_mainStep s s1 hI hs
  | task i h => exact inv_taskStep s s1 i h hI hs

theorem inv_run (acts : List Act) : ∀ (s s1 : Sys), Inv s → run s acts = some s1 → Inv s1 := by
  induction acts with
  | nil =>
    intro s s1 hI hr
    simp only [run] at hr
    injection hr with hr
    subst hr
    exact hI
  | cons a as ih =>
    intro s s1 hI hr
    simp only [run] at hr
    split at hr
    · cases hr
    · next s2 hs => exact ih s2 s1 (inv_step s s2 a hI hs) hr

theorem inv_reachable (mem : Mem) (acts : List Act) (s : Sys)
    (hr : run (Sys.init mem) acts = some s) : Inv s :=
  inv_run acts _ _ (inv_init mem) hr

theorem TPc.parked_of (pc : TPc) (h1 : pc.preamble = false) (h2 : pc ≠ .woken)
    (h3 : pc.active = false) : ∃ c, pc = .parked c := by
  cases pc <;> simp_all [TPc.preamble, TPc.active]

theorem TPc.active_cases (pc : TPc) (h : pc.active = true) :
    pc = .running ∨ pc.holds = true := by
  cases pc <;> simp_all [TPc.active, TPc.holds]

theorem TPc.active_of_outside (pc : TPc) (h1 : pc.outsideWait = true)
    (h2 : pc.preamble = false) : pc.active = true := by
  cases pc <;> simp_all [TPc.active, TPc.preamble, TPc.outsideWait]

/-- What one step can change. -/
theorem step_effect (s s1 : Sys) (a : Act) (hs : step s a = some s1) :
    (s1.startSignals = s.startSignals ∨ ∃ p, s.main = .dispatch p) ∧
    (s.main.registering = false →
      s1.main.registering = false ∧
        s1.port.nNumThreadsCreated = s.port.nNumThreadsCreated) ∧
    (s1.barrierSignals = s.barrierSignals ∨
      ∃ i, i < s.nThreads ∧ (s.thread i).pc = .counted ∧
        s.port.nNumThreadsCreated = s.port.nNumThreadsStarted ∧
        s1.barrierSignals = s.barrierSignals + 1 ∧
        s1.port.nNumThreadsStarted = s.port.nNumThreadsStarted ∧
        (s1.thread i).pc = .ready) ∧
    (s1.port.nNumThreadsStarted = s.port.nNumThreadsStarted ∨
      ∃ i, i < s.nThreads ∧ (s.thread i).pc = .locked) ∧
    (∀ j, (s1.thread j).pc = .counted →
      (s.thread j).pc = .counted ∨ (s.thread j).pc = .locked) := by
  cases a with
  | register p =>
    simp only [step] at hs
    split at hs
    · next hc =>
      injection hs with hs
      subst hs
      refine ⟨Or.inl rfl, ?_, Or.inl rfl, Or.inl rfl, fun j h => Or.inl h⟩
      intro h; rw [hc.1] at h; cases h
    · cases hs
  | osStart p =>
    simp only [step] at hs
    split at hs
    · next hc =>
      injection hs with hs
      subst hs
      refine ⟨Or.inl rfl, ?_, Or.inl rfl, Or.inl rfl, fun j h => Or.inl h⟩
      intro h; rw [hc] at h; cases h
    · cases hs
  | main =>
    simp only [step] at hs
    unfold mainStep at hs
    split at hs <;> (try split at hs) <;> cases hs <;>
      refine ⟨?_, ?_, Or.inl rfl, Or.inl rfl, ?_⟩
    all_goals first
      | exact Or.inl rfl
      | exact Or.inr ⟨_, by assumption⟩
      | exact fun _ => ⟨rfl, rfl⟩
      | exact fun j h => Or.inl h
      | (intro h; simp_all [MPc.registering]; done)
      | (intro j hj
         simp only [Function.update_apply, condSignal] at hj
         split at hj <;> first | cases hj | exact Or.inl hj)
  | task i h =>
    simp only [step] at hs
    unfold taskStep at hs
    split at hs
    case isFalse => cases hs
    case isTrue hi =>
    split at hs <;> (try split at hs) <;> cases hs <;>
      refine ⟨Or.inl rfl, ?_, ?_, ?_, ?_⟩
    all_goals first
      | exact Or.inl rfl
      | exact Or.inr ⟨i, hi, by assumption⟩
      | exact Or.inr ⟨i, hi, by assumption, by assumption, rfl, rfl, by simp [Sys.setPc]⟩
      | exact fun _ => ⟨rfl, rfl⟩
      | exact fun hr => ⟨hr, rfl⟩
      | exact fun hr => ⟨by simp only [Sys.setPc]; split <;> first | rfl | exact hr, rfl⟩
      | (intro j hj
         simp only [Sys.setPc, Function.update_apply, condSignal] at hj
         split at hj <;> first
           | (subst_vars; exact Or.inr (by assumption))
           | cases hj
           | exact Or.inl hj
           | (split at hj <;> first | cases hj | exact Or.inl hj))

/-! ### Sample executions -/

theorem some_getD {α : Type} (o : Option α) (d : α) (h : o.isSome = true) :
    o = some (o.getD d) := by
  cases o with
  | none => cases h
  | some a => rfl

theorem demoState_spec (acts : List Act)
    (h : (run (Sys.init demoMem) acts).isSome = true) :
    run (Sys.init demoMem) acts = some (demoState acts) :=
  some_getD _ _ h

/-! ### C3: the startup barrier -/

/-- C3. In every execution (all tasks are registered by the main thread before
it calls `OSStartHighRdy`), a step that signals a slot condition from
`OSStartHighRdy` (line 330) starts in a state where `nNumThreadsStarted ==
nNumThreadsCreated`, a thread exists for every registered task, and every
task thread is blocked in the `pthread_cond_wait` of its wrapper on the
condition of its own slot. -/
theorem startup_barrier (mem : Mem) (acts : List Act) (s s1 : Sys) (a : Act)
    (hr : run (Sys.init mem) acts = some s) (hs : step s a = some s1)
    (hsig : s1.startSignals ≠ s.startSignals) :
    s.port.nNumThreadsStarted = s.port.nNumThreadsCreated ∧
    s.nThreads = s.port.nNumThreadsCreated ∧
    ∀ i, i < s.nThreads →
      (s.thread i).pc = .parked (s.port.mem (s.thread i).pTaskInfo).nThreadIdx := by
  have hI := inv_reachable mem acts s hr
  obtain ⟨p, hp⟩ : ∃ p, s.main = .dispatch p := by
    rcases (step_effect s s1 a hs).1 with h | h
    · exact absurd h hsig
    · exact h
  have hlen := hI.len
  rw [hp] at hlen
  refine ⟨hI.eqStarted (by rw [hp]; rfl), by simpa [MPc.inHook] using hlen, ?_⟩
  intro i hi
  have hT := hI.thr i hi
  obtain ⟨hw, ha, _⟩ := hT.early (by rw [hp]; simp) (by rw [hp]; simp)
  have hpre : (s.thread i).pc.preamble = false := by
    cases hc : (s.thread i).pc.preamble
    · rfl
    · have := hT.pre hc
      rw [hp] at this; cases this
  obtain ⟨c, hc⟩ := TPc.parked_of _ hpre hw ha
  rw [hc, hT.own c hc, hT.recIdx]

/-- Witness of `startup_barrier`: two tasks, both wrappers parked, the main
thread before line 330; its next statement signals slot 1. -/
theorem startup_barrier_witness :
    (demoState demoDispatch).port.nNumThreadsStarted =
      (demoState demoDispatch).port.nNumThreadsCreated ∧
    (demoState demoDispatch).nThreads = (demoState demoDispatch).port.nNumThreadsCreated ∧
    ((demoState demoDispatch).thread 0).pc = .parked 0 ∧
    ((demoState demoDispatch).thread 1).pc = .parked 1 :=
  have h := startup_barrier demoMem demoDispatch (demoState demoDispatch)
    ((step (demoState demoDispatch) .main).getD (Sys.init demoMem)) .main
    (demoState_spec _ (by decide)) (some_getD _ _ (by decide)) (by decide)
  ⟨h.1, h.2.1, h.2.2 0 (by decide), h.2.2 1 (by decide)⟩

/-! ### C2: one runner -/

/-- C2. In every execution, in every state after `OSStartHighRdy` has got past
its barrier (lines 317-320), at most one task thread is outside a condition
wait. -/
theorem single_runner (mem : Mem) (acts : List Act) (s : Sys)
    (hr : run (Sys.init mem) acts = some s) (hb : s.main.pastBarrier = true) :
    countPc TPc.outsideWait s.thread s.nThreads ≤ 1 := by
  have hI := inv_reachable mem acts s hr
  apply countPc_le_one
  intro i j hi hj hoi hoj
  have hTi := hI.thr i hi
  have hTj := hI.thr j hj
  have key : ∀ k, k < s.nThreads → (s.thread k).pc.outsideWait = true →
      (s.thread k).pc.active = true := by
    intro k hk ho
    apply TPc.active_of_outside _ ho
    cases hc : (s.thread k).pc.preamble
    · rfl
    · have := (hI.thr k hk).pre hc
      rw [hb] at this; cases this
  have hai := key i hi hoi
  have haj := key j hj hoj
  rcases TPc.active_cases _ hai with hri | hhi
  · have hfree := hTi.free hri
    rcases TPc.active_cases _ haj with hrj | hhj
    · have h1 := hTi.cur (by rw [hri]; rfl)
      have h2 := hTj.cur (by rw [hrj]; rfl)
      omega
    · have := (hI.mutT j).1 hhj
      rw [hfree] at this; cases this
  · have hmi := (hI.mutT i).1 hhi
    rcases TPc.active_cases _ haj with hrj | hhj
    · have hfree := hTj.free hrj
      rw [hfree] at hmi; cases hmi
    · have hmj := (hI.mutT j).1 hhj
      rw [hmi] at hmj
      injection hmj with hmj
      injection hmj

/-- Witness of `single_runner`: two tasks; after the first dispatch the thread
of slot 1 runs its task and the thread of slot 0 is parked. -/
theorem single_runner_witness :
    ((demoState demoRun).thread 1).pc = .running ∧
    countPc TPc.outsideWait (demoState demoRun).thread (demoState demoRun).nThreads ≤ 1 :=
  ⟨by decide,
   single_runner demoMem demoRun (demoState demoRun) (demoState_spec _ (by decide))
     (by decide)⟩

/-! ### C7: signals on the barrier condition -/

theorem MPc.inHook_of_registering (m : MPc) (h : m.registering = false) :
    m.inHook = false := by
  cases m <;> first | rfl | cases h

theorem barrier_rel_step (b : Nat) (s s1 : Sys) (a : Act) (hI : Inv s)
    (hs : step s a = some s1) (hreg : s.main.registering = false)
    (hrel : s.barrierSignals = b ∨
      (s.barrierSignals = b + 1 ∧
        s.port.nNumThreadsStarted = s.port.nNumThreadsCreated ∧
        ∀ j, (s.thread j).pc ≠ .counted)) :
    s1.main.registering = false ∧
    (s1.barrierSignals = b ∨
      (s1.barrierSignals = b + 1 ∧
        s1.port.nNumThreadsStarted = s1.port.nNumThreadsCreated ∧
        ∀ j, (s1.thread j).pc ≠ .counted)) := by
  obtain ⟨_, e2, e3, e4, e5⟩ := step_effect s s1 a hs
  obtain ⟨hreg1, hcr⟩ := e2 hreg
  have hnolock : s.port.nNumThreadsStarted = s.port.nNumThreadsCreated →
      ∀ j, (s.thread j).pc ≠ .locked := by
    intro heq j hl
    by_cases hj : j < s.nThreads
    · have := Inv.all_counted_of hI (MPc.inHook_of_registering _ hreg) heq j hj
      rw [hl] at this; cases this
    · have := hI.dormant j (by omega)
      rw [this] at hl; cases hl
  refine ⟨hreg1, ?_⟩
  rcases hrel with hb | ⟨hb, heq, hnc⟩
  · rcases e3 with h | ⟨i, hi, hpc, hce, hsig, hst, hrdy⟩
    · exact Or.inl (by rw [h, hb])
    · refine Or.inr ⟨by rw [hsig, hb], by rw [hst, hcr, hce], ?_⟩
      intro j hj
      rcases e5 j hj with h | h
      · have h1 := (hI.mutT j).1 (by rw [h]; rfl)
        have h2 := (hI.mutT i).1 (by rw [hpc]; rfl)
        rw [h1] at h2
        injection h2 with h2
        injection h2 with h2
        subst h2
        rw [hrdy] at hj; cases hj
      · exact hnolock hce.symm j h
  · rcases e3 with h | ⟨i, hi, hpc, _⟩
    · refine Or.inr ⟨by rw [h, hb], ?_, ?_⟩
      · rcases e4 with h4 | ⟨i, _, hl⟩
        · rw [h4, hcr, heq]
        · exact absurd hl (hnolock heq i)
      · intro j hj
        rcases e5 j hj with h5 | h5
        · exact hnc j h5
        · exact hnolock heq j h5
    · exact absurd hpc (hnc i)

theorem barrier_rel_run (b : Nat) (acts : List Act) : ∀ (s s1 : Sys), Inv s →
    run s acts = some s1 → s.main.registering = false →
    (s.barrierSignals = b ∨
      (s.barrierSignals = b + 1 ∧
        s.port.nNumThreadsStarted = s.port.nNumThreadsCreated ∧
        ∀ j, (s.thread j).pc ≠ .counted)) →
    (s1.barrierSignals = b ∨
      (s1.barrierSignals = b + 1 ∧
        s1.port.nNumThreadsStarted = s1.port.nNumThreadsCreated ∧
        ∀ j, (s1.thread j).pc ≠ .counted)) := by
  induction acts with
  | nil =>
    intro s s1 _ hr _ hrel
    simp only [run] at hr
    injection hr with hr
    subst hr
    exact hrel
  | cons a as ih =>
    intro s s1 hI hr hreg hrel
    simp only [run] at hr
    split at hr
    · cases hr
    · next s2 hs =>
      obtain ⟨h1, h2⟩ := barrier_rel_step b s s2 a hI hs hreg hrel
      exact ih s2 s1 (inv_step s s2 a hI hs) hr h1 h2

/-- C7, counterexample. Task 0 is registered and its wrapper runs up to its
wait, then task 1 is registered and its wrapper runs up to its wait: each
wrapper finds `nNumThreadsCreated == nNumThreadsStarted` on line 455, so
`cvThreadWrapper` is signalled twice. -/
theorem barrier_signalled_twice :
    (run (Sys.init demoMem) demoCreate).map (fun s => s.barrierSignals) = some 2 := by
  decide

/-- C7, amended. In every execution, once the main thread has left task
creation (every task is registered), `cvThreadWrapper` is signalled at most
once more, and after that signal `nNumThreadsStarted` equals
`nNumThreadsCreated`. -/
theorem barrier_signal_once_registered (mem : Mem) (acts1 acts2 : List Act) (s s2 : Sys)
    (h1 : run (Sys.init mem) acts1 = some s) (hreg : s.main.registering = false)
    (h2 : run s acts2 = some s2) :
    s2.barrierSignals ≤ s.barrierSignals + 1 ∧
    (s2.barrierSignals = s.barrierSignals + 1 →
      s2.port.nNumThreadsStarted = s2.port.nNumThreadsCreated) := by
  have hI := inv_reachable mem acts1 s h1
  rcases barrier_rel_run s.barrierSignals acts2 s s2 hI h2 hreg (Or.inl rfl) with h | h
  · exact ⟨by omega, fun h3 => by omega⟩
  · exact ⟨by omega, fun _ => h.2.1⟩

/-- Witness of `barrier_signal_once_registered`: one task; `OSStartHighRdy`
waits on `cvThreadWrapper`, then the wrapper runs up to line 456 and signals. -/
theorem barrier_signal_once_registered_witness :
    (demoState demoEarlyStart).barrierSignals = 0 ∧
    ((run (demoState demoEarlyStart) (wrapperToWait 0)).getD (Sys.init demoMem)).barrierSignals
      ≤ (demoState demoEarlyStart).barrierSignals + 1 ∧
    ((run (demoState demoEarlyStart) (wrapperToWait 0)).getD (Sys.init demoMem)).barrierSignals
      = 1 :=
  ⟨by decide,
   (barrier_signal_once_registered demoMem demoEarlyStart (wrapperToWait 0)
      (demoState demoEarlyStart) _ (demoState_spec _ (by decide)) (by decide)
      (some_getD _ _ (by decide))).1,
   by decide⟩

/-! ### C4: the first dispatch -/

theorem countPc_all (q : TPc → Bool) (f : Nat → Thread) (n : Nat)
    (h : ∀ j, j < n → q (f j).pc = true) : countPc q f n = n := by
  induction n with
  | zero => rfl
  | succ n ih =>
    simp only [countPc]
    rw [ih (fun j hj => h j (by omega)), h n (by omega)]
    simp

/-- C4. For every number `N` of registered tasks that are all parked, each on
the condition of its own slot, with `OSTCBCur` one of them: `OSStartHighRdy`
runs from its entry to `while(1)` without blocking; it signals exactly one
slot condition, the one whose index is stored in the record of `OSTCBCur`;
the thread of that slot has been woken and its next step returns from
`pthread_cond_wait`, while the other `N - 1` threads remain parked and cannot
move. -/
theorem first_dispatch (s : Sys) (N : Nat)
    (hmain : s.main = .start) (hmut : s.mutThread = none)
    (hn : s.nThreads = N) (hcr : s.port.nNumThreadsCreated = N)
    (hst : s.port.nNumThreadsStarted = N)
    (hpark : ∀ i, i < N → (s.thread i).pc = .parked i)
    (hcur : s.curIdx < N) :
    ∃ s1, run s [.main, .main, .main, .main, .main, .main] = some s1 ∧
      s1.main = .spin ∧
      s1.startSignals = s.startSignals ++ [s.curIdx] ∧
      (s1.thread s.curIdx).pc = .woken ∧
      (∃ s2, step s1 (.task s.curIdx 0) = some s2 ∧ (s2.thread s.curIdx).pc = .resumed) ∧
      (∀ i, i < N → i ≠ s.curIdx →
        (s1.thread i).pc = .parked i ∧ ∀ h, step s1 (.task i h) = none) ∧
      countPc TPc.isParked s1.thread N = N - 1 := by
  refine ⟨{ s with
      alarmArmed := true, mutThread := none, main := .spin
      thread := condSignal s.curIdx s.thread
      startSignals := s.startSignals ++ [s.curIdx] }, ?_, rfl, rfl, ?_, ?_, ?_, ?_⟩
  · simp [run, step, mainStep, hmain, hmut, hcr, hst, Sys.curIdx]
  · simp [condSignal, hpark _ hcur]
  · simp [step, taskStep, hn, hcur, condSignal, hpark _ hcur, Sys.setPc]
  · intro i hi hne
    simp [step, taskStep, hn, hi, condSignal, hpark i hi, hne]
  · have h1 := countPc_update TPc.isParked s.thread N s.curIdx
      { s.thread s.curIdx with pc := .woken } hcur
    have h2 : countPc TPc.isParked (condSignal s.curIdx s.thread) N =
        countPc TPc.isParked
          (Function.update s.thread s.curIdx { s.thread s.curIdx with pc := .woken }) N := by
      apply countPc_congr
      intro j hj
      by_cases hjc : j = s.curIdx
      · subst hjc; simp [condSignal, hpark _ hcur]
      · simp [condSignal, hpark j hj, hjc, Function.update_noteq hjc]
    have h3 := countPc_all TPc.isParked s.thread N (fun j hj => by rw [hpark j hj]; rfl)
    simp only [hpark _ hcur, TPc.isParked] at h1
    simp only [h2]
    simp at h1
    omega

/-- Witness of `first_dispatch`: two tasks, both parked, `OSTCBCur` the task of
slot 1, the main thread at the entry of `OSStartHighRdy`. -/
theorem first_dispatch_witness :
    (((run (demoState demoStart) [.main, .main, .main, .main, .main, .main]).getD
        (Sys.init demoMem)).thread (demoState demoStart).curIdx).pc = .woken ∧
    (((run (demoState demoStart) [.main, .main, .main, .main, .main, .main]).getD
        (Sys.init demoMem)).thread 0).pc = .parked 0 ∧
    (demoState demoStart).curIdx = 1 :=
  match first_dispatch (demoState demoStart) 2 (by decide) (by decide) (by decide)
    (by decide) (by decide) (by decide) (by decide) with
  | ⟨_, hr, _, _, hw, _, hp, _⟩ => by
    rw [hr]
    exact ⟨hw, (hp 0 (by decide) (by decide)).1, by decide⟩

/-! ### C12, C13: nested critical sections -/

/-- A section started with mask `{SIGALRM}` leaves `{SIGALRM}` in its own save
variable. -/
theorem Code.crit_new_cpu_sr (v : Nat) (body : Code) (t : SigState)
    (ht : t.mask = {SIGALRM}) :
    ((Code.crit v body).run t).new_cpu_sr v = {SIGALRM} := by
  simp only [Code.run, OS_EXIT_CRITICAL]
  rcases (Code.run_masked body (OS_ENTER_CRITICAL v t) (OS_ENTER_CRITICAL_mask v t)).2.2 v
    with h | h
  · rw [h]; simp [OS_ENTER_CRITICAL, ht]
  · exact h

theorem afterInnerExit_mask (v w : Nat) (pre inner : Code) (t : SigState) :
    (afterInnerExit v w pre inner t).mask = {SIGALRM} := by
  have h1 := (Code.run_masked pre (OS_ENTER_CRITICAL v t) (OS_ENTER_CRITICAL_mask v t)).2.1
  have h2 := (Code.run_masked (.crit w inner) _ h1).2.1
  simpa [afterInnerExit, Code.run] using h2

/-- C12, refuted. There is no nesting of critical sections, whether the inner
pair has a save variable of its own or shares the one of the outer pair, in
which the tick is deliverable right after the inner `OS_EXIT_CRITICAL`. -/
theorem no_premature_unmask :
    ¬ ∃ (t : SigState) (v w : Nat) (pre inner : Code),
      tickDeliverable (afterInnerExit v w pre inner t) := by
  rintro ⟨t, v, w, pre, inner, h⟩
  have hm := afterInnerExit_mask v w pre inner t
  simp [tickDeliverable, hm] at h

/-- C12, amended. In every nesting of critical sections the inner
`OS_EXIT_CRITICAL` puts back the mask saved by the inner `OS_ENTER_CRITICAL`,
which is `{SIGALRM}`: the tick is not deliverable before the outer section is
exited.  When the inner pair shares the save variable of the outer pair, the
outer `OS_EXIT_CRITICAL` too puts back `{SIGALRM}`, whatever the mask was
before the outer section. -/
theorem inner_exit_keeps_tick_blocked (t : SigState) (v w : Nat) (pre inner post : Code) :
    (afterInnerExit v w pre inner t).mask = {SIGALRM} ∧
    ¬ tickDeliverable (afterInnerExit v w pre inner t) ∧
    (Code.run (.crit v (.seq pre (.seq (.crit v inner) post))) t).mask = {SIGALRM} := by
  have hm := afterInnerExit_mask v w pre inner t
  refine ⟨hm, by simp [tickDeliverable, hm], ?_⟩
  have h1 := (Code.run_masked pre (OS_ENTER_CRITICAL v t) (OS_ENTER_CRITICAL_mask v t)).2.1
  have h2 := (Code.run_masked (.crit v inner) _ h1).2.1
  have h3 := Code.crit_new_cpu_sr v inner _ h1
  have h4 := (Code.run_masked post _ h2).2.2 v
  simp only [Code.run, OS_EXIT_CRITICAL, sigprocmask] at h2 h3 h4 ⊢
  rcases h4 with h | h
  · rw [h]; exact h3
  · exact h

/-- C13. For every mask `M` of the calling thread and every nest of critical
sections in which each pair has a save variable of its own: inside the
outermost section the mask is exactly `{SIGALRM}` at every program point, and
after the outermost `OS_EXIT_CRITICAL` the mask is exactly `M`, for every
signal. -/
theorem mask_round_trip (t : SigState) (v : Nat) (body : Code)
    (hown : (Code.crit v body).vars.Nodup) :
    (∀ p ∈ body.points (OS_ENTER_CRITICAL v t), p.mask = {SIGALRM}) ∧
    (Code.run (.crit v body) t).mask = t.mask ∧
    ∀ sig, sig ∈ (Code.run (.crit v body) t).mask ↔ sig ∈ t.mask := by
  have hv : v ∉ body.vars := (List.nodup_cons.1 hown).1
  have h : (Code.run (.crit v body) t).mask = t.mask := by
    simp only [Code.run, OS_EXIT_CRITICAL, sigprocmask]
    rw [Code.run_new_cpu_sr body _ v hv]
    simp [OS_ENTER_CRITICAL]
  exact ⟨(Code.run_masked body _ (OS_ENTER_CRITICAL_mask v t)).1, h, fun sig => by rw [h]⟩

/-- Witness of `mask_round_trip`: a thread with mask `{2, 15}` runs a section
(save variable 0) that contains a nested one (save variable 1). -/
theorem mask_round_trip_witness :
    (Code.run (.crit 0 (.seq .work (.crit 1 .work)))
      { mask := {2, 15}, new_cpu_sr := fun _ => ∅ }).mask = {2, 15} ∧
    (OS_EXIT_CRITICAL 1 (OS_ENTER_CRITICAL 1 (OS_ENTER_CRITICAL 0
      { mask := {2, 15}, new_cpu_sr := fun _ => ∅ }))).mask = {SIGALRM} :=
  ⟨(mask_round_trip { mask := {2, 15}, new_cpu_sr := fun _ => ∅ } 0
      (.seq .work (.crit 1 .work)) (by decide)).2.1,
   (mask_round_trip { mask := {2, 15}, new_cpu_sr := fun _ => ∅ } 0
      (.seq .work (.crit 1 .work)) (by decide)).1 _ (by simp [Code.points, Code.run])⟩

/-! ### C11: the targets of a handoff -/

/-- C11. For every task `next` named by `OSTCBHighRdy` and every task named by
`OSTCBCur` on entry: a thread that runs `OSIntCtxSw` takes `mutThread`,
overwrites `OSTCBCur` with `OSTCBHighRdy`, then signals the condition of the
slot whose index is stored in the record of `next` while it is not yet
waiting, then waits on the condition of the slot stored in the record of the
task that was current on entry; `mutThread` is held by the thread from the
lock to the wait, which releases it.  `OSCtxSw` and `OS_TASK_SW` are the same
sequence. -/
theorem handoff_targets (s : Sys) (i next : Nat) (hi : i < s.nThreads)
    (hrun : (s.thread i).pc = .running) (hfree : s.mutThread = none) :
    ∃ s1 s2 s3 s4,
      step s (.task i next) = some s1 ∧ step s1 (.task i next) = some s2 ∧
      step s2 (.task i next) = some s3 ∧ step s3 (.task i next) = some s4 ∧
      OSIntCtxSw s i next = some s4 ∧
      OSCtxSw s i next = OSIntCtxSw s i next ∧
      OS_TASK_SW s i next = OSIntCtxSw s i next ∧
      s1.mutThread = some (.task i) ∧ s2.mutThread = some (.task i) ∧
      s3.mutThread = some (.task i) ∧ s4.mutThread = none ∧
      s2.OSTCBCur = next ∧ s4.OSTCBCur = next ∧
      (s2.thread i).pc = .swSignal next s.OSTCBCur ∧
      (∀ j, j ≠ i → s2.thread j = s.thread j) ∧
      (s3.thread i).pc = .swWait s.OSTCBCur ∧
      (∀ j, j ≠ i → s3.thread j = condSignal (s.port.mem next).nThreadIdx s.thread j) ∧
      (s4.thread i).pc = .parked (s.port.mem s.OSTCBCur).nThreadIdx ∧
      (∀ j, j ≠ i → s4.thread j = condSignal (s.port.mem next).nThreadIdx s.thread j) := by
  have e1 : step s (.task i next) =
      some { (s.setPc i .swLocked) with mutThread := some (.task i) } := by
    simp [step, taskStep, hi, hrun, hfree]
  have e2 : step { (s.setPc i .swLocked) with mutThread := some (.task i) } (.task i next) =
      some { s with
        thread := Function.update s.thread i { s.thread i with pc := .swSignal next s.OSTCBCur }
        mutThread := some (.task i)
        OSTCBCur := next } := by
    simp [step, taskStep, hi, Sys.setPc]
  have e3 : step { s with
        thread := Function.update s.thread i { s.thread i with pc := .swSignal next s.OSTCBCur }
        mutThread := some (.task i)
        OSTCBCur := next } (.task i next) =
      some { s with
        thread := Function.update (condSignal (s.port.mem next).nThreadIdx
          (Function.update s.thread i { s.thread i with pc := .swSignal next s.OSTCBCur })) i
          { s.thread i with pc := .swWait s.OSTCBCur }
        mutThread := some (.task i)
        OSTCBCur := next } := by
    simp [step, taskStep, hi]
  have e4 : step { s with
        thread := Function.update (condSignal (s.port.mem next).nThreadIdx
          (Function.update s.thread i { s.thread i with pc := .swSignal next s.OSTCBCur })) i
          { s.thread i with pc := .swWait s.OSTCBCur }
        mutThread := some (.task i)
        OSTCBCur := next } (.task i next) =
      some { s with
        thread := Function.update (condSignal (s.port.mem next).nThreadIdx
          (Function.update s.thread i { s.thread i with pc := .swSignal next s.OSTCBCur })) i
          { s.thread i with pc := .parked (s.port.mem s.OSTCBCur).nThreadIdx }
        mutThread := none
        OSTCBCur := next } := by
    simp [step, taskStep, hi, Sys.setPc]
  have hcs : ∀ j, j ≠ i →
      condSignal (s.port.mem next).nThreadIdx
        (Function.update s.thread i { s.thread i with pc := .swSignal next s.OSTCBCur }) j =
      condSignal (s.port.mem next).nThreadIdx s.thread j := by
    intro j hj
    simp [condSignal, Function.update_noteq hj]
  refine ⟨_, _, _, _, e1, e2, e3, e4, ?_, rfl, rfl, rfl, rfl, rfl, rfl, rfl, rfl, ?_, ?_, ?_, ?_,
    ?_, ?_⟩
  · simp only [OSIntCtxSw, hrun, if_true, run, e1, e2, e3, e4]
  · simp [Sys.setPc]
  · intro j hj; simp [Function.update_noteq hj]
  · simp
  · intro j hj; simp only [Function.update_noteq hj]; exact hcs j hj
  · simp
  · intro j hj; simp only [Function.update_noteq hj]; exact hcs j hj

/-- Witness of `handoff_targets`: two tasks; the thread of slot 1 runs (its
record, 200, is `OSTCBCur`) and switches to the task of record 100: the thread
of slot 0 is woken, the thread of slot 1 waits on slot 1, `OSTCBCur` is 100. -/
theorem handoff_targets_witness :
    ((demoSwitch.getD (Sys.init demoMem)).thread 1).pc = .parked 1 ∧
    ((demoSwitch.getD (Sys.init demoMem)).thread 0).pc = .woken ∧
    (demoSwitch.getD (Sys.init demoMem)).OSTCBCur = 100 ∧
    (demoState demoRun).OSTCBCur = 200 :=
  match handoff_targets (demoState demoRun) 1 100 (by decide) (by decide) (by decide) with
  | ⟨_, _, _, s4, _, _, _, _, hr, _, _, _, _, _, _, _, hc, _, _, _, _, hp, ho⟩ => by
    have e : demoSwitch = some s4 := hr
    rw [e]
    exact ⟨hp.trans (by decide), (congrArg Thread.pc (ho 0 (by decide))).trans (by decide),
      hc, by decide⟩

end LinuxPort

